import Mathlib

/-!
# simDataflow: node slot tables, wiring and the editor events listener

A shallow embedding of `DFNode.h` (data model, `setNumIOlets`, `validateIOlet`) and of
`DFEventsListener.cpp` (the handlers reacting to the editor's structural events).

`DFNode*` pointers are represented by the identity of the node they point to
(`DFNodeID`, a natural number): a pointer is live exactly when its identity is a key
of the registry `byId_`.

The bodies of the `DFNode` member functions other than the two templates are in
`DFNode.cpp`; the definitions standing for them are marked "Modelled from the spec".
A handler is a function from the state (`World`) to the state it leaves and the
exception that escaped it (`Outcome`); every call it makes is appended to the log
`World.trace`, and the ghost field `World.faults` collects the calls that misuse a node
pointer.

The development has three parts: the definitions, the lemmas on the graph operations
and on the elementary steps of a handler, and the theorems settling claims C1 to C10
with their worked instances.
-/

namespace SimDataflow

/-! ## Data model (`DFNode.h`) -/

/-- Identity of a node, `typedef size_t DFNodeID`; also stands for a `DFNode*`. -/
abbrev DFNodeID := Nat

/-- The struct `DFNodeIOlet` (and its two empty subclasses `DFNodeInlet`,
`DFNodeOutlet`): owning node and slot index. -/
structure DFNodeIOlet where
  node : DFNodeID
  index : Nat
deriving DecidableEq, Repr

/-- The struct `DFConnection`: source node, source outlet, destination node,
destination inlet. -/
structure DFConnection where
  src : DFNodeID
  srcOutlet : Nat
  dst : DFNodeID
  dstInlet : Nat
deriving DecidableEq, Repr

/-- Errors raised by the core: `std::range_error`, the reference error of
`validateNode`, and the construction error of the node factory. All of them are
`std::runtime_error`s. -/
inductive DFError where
  | rangeError (msg : String)
  | referenceError (msg : String)
  | constructionError (msg : String)
deriving DecidableEq, Repr

/-- The value a `std::vector::resize` fills new elements with: a value-initialised
slot (null owner, index zero). -/
def DFNodeIOlet.blank : DFNodeIOlet := ⟨0, 0⟩

/-- The call `v.resize(n)` of `std::vector`: keep the first `n` elements, pad with `d`. -/
def resize {α : Type} (v : List α) (n : Nat) (d : α) : List α :=
  v.take n ++ List.replicate (n - v.length) d

/-- The template `DFNode::setNumIOlets(v, n)` of `DFNode.h`, lines 111-121, for the node
`this`: resize, then initialise every slot from the old size on. -/
def setNumIOlets (this : DFNodeID) (v : List DFNodeIOlet) (n : Nat) : List DFNodeIOlet :=
  let oldSize := v.length
  let v1 := resize v n DFNodeIOlet.blank
  (List.range' oldSize (n - oldSize)).foldl (fun w i => w.set i ⟨this, i⟩) v1

/-- The template `DFNode::validateIOlet(v, i, n)` of `DFNode.h`, lines 123-128. -/
def validateIOlet {α : Type} (v : List α) (i : Nat) (n : String) : Except DFError Unit :=
  if i ≥ v.length then
    Except.error (DFError.rangeError ("invalid " ++ n ++ " index: " ++ toString i))
  else
    Except.ok ()

/-- Slot `i` of the table records index `i` and the owner `this`. -/
def SlotsOk (this : DFNodeID) (v : List DFNodeIOlet) : Prop :=
  ∀ i, i < v.length → v[i]? = some ⟨this, i⟩

/-- The per-instance fields of class `DFNode` (`DFNode.h`, lines 101-109). The sets
`std::set<DFNodeOutlet>` / `std::set<DFNodeInlet>` are duplicate-free lists. -/
structure DFNode where
  id : DFNodeID
  x : Int
  y : Int
  args : List String
  text : String
  inlets : List DFNodeIOlet
  outlets : List DFNodeIOlet
  inboundConnections : List (List DFNodeIOlet)
  outboundConnections : List (List DFNodeIOlet)
deriving DecidableEq, Repr

/-- The static fields of class `DFNode` (`DFNode.h`, lines 99-100): the registry
`byId_` (each node is stored under its own `id`) and the counter `nextNodeId_`. -/
structure Graph where
  byId : List DFNode
  nextNodeId : DFNodeID
deriving DecidableEq, Repr

/-- The graph with no node. -/
def Graph.empty : Graph := ⟨[], 0⟩

/-! ## The core operations of `DFNode`

`DFNode.h` declares them; their bodies are in `DFNode.cpp`. -/

/-- Modelled from the spec: `DFNode::byId(id, 0)` (body in `DFNode.cpp`); registry
lookup, "returns a caller-supplied fallback instead of failing". -/
def Graph.find (g : Graph) (p : DFNodeID) : Option DFNode :=
  g.byId.find? (fun n => n.id == p)

/-- A pointer is live when the node it designates is registered. -/
def Graph.live (g : Graph) (p : DFNodeID) : Prop := (g.find p).isSome = true

instance (g : Graph) (p : DFNodeID) : Decidable (g.live p) :=
  inferInstanceAs (Decidable ((g.find p).isSome = true))

/-- Apply `f` to the node designated by `p` (a member function mutating `*p`). -/
def Graph.update (g : Graph) (p : DFNodeID) (f : DFNode → DFNode) : Graph :=
  { g with byId := g.byId.map (fun n => if n.id = p then f n else n) }

/-- Modelled from the spec: `DFNode::inletCount()` (body in `DFNode.cpp`), the number of
inlet slots; zero stands for a pointer that is not live. -/
def Graph.inletCount (g : Graph) (p : DFNodeID) : Nat :=
  match g.find p with
  | some n => n.inlets.length
  | none => 0

/-- Modelled from the spec: `DFNode::outletCount()` (body in `DFNode.cpp`), the number
of outlet slots. -/
def Graph.outletCount (g : Graph) (p : DFNodeID) : Nat :=
  match g.find p with
  | some n => n.outlets.length
  | none => 0

/-- Modelled from the spec: `DFNode::str()` (body in `DFNode.cpp`), the definition text
the node was built from. -/
def Graph.str (g : Graph) (p : DFNodeID) : String :=
  match g.find p with
  | some n => n.text
  | none => ""

/-- The connection set stored at slot `k` of a table (empty past the end). -/
def slotSet (t : List (List DFNodeIOlet)) (k : Nat) : List DFNodeIOlet := t.getD k []

/-- The call `t[k].insert(x)` on a vector of sets. -/
def insertAt (t : List (List DFNodeIOlet)) (k : Nat) (x : DFNodeIOlet) :
    List (List DFNodeIOlet) :=
  if x ∈ slotSet t k then t else t.set k (slotSet t k ++ [x])

/-- The call `t[k].erase(x)` on a vector of sets. -/
def eraseAt (t : List (List DFNodeIOlet)) (k : Nat) (x : DFNodeIOlet) :
    List (List DFNodeIOlet) :=
  t.set k ((slotSet t k).filter (fun y => decide (y ≠ x)))

/-- The statement `outboundConnections_[k].insert(x)` on a node. -/
def DFNode.addOutbound (k : Nat) (x : DFNodeIOlet) (n : DFNode) : DFNode :=
  { n with outboundConnections := insertAt n.outboundConnections k x }

/-- The statement `inboundConnections_[i].insert(x)` on a node. -/
def DFNode.addInbound (i : Nat) (x : DFNodeIOlet) (n : DFNode) : DFNode :=
  { n with inboundConnections := insertAt n.inboundConnections i x }

/-- The statement `outboundConnections_[k].erase(x)` on a node. -/
def DFNode.eraseOutbound (k : Nat) (x : DFNodeIOlet) (n : DFNode) : DFNode :=
  { n with outboundConnections := eraseAt n.outboundConnections k x }

/-- The statement `inboundConnections_[i].erase(x)` on a node. -/
def DFNode.eraseInbound (i : Nat) (x : DFNodeIOlet) (n : DFNode) : DFNode :=
  { n with inboundConnections := eraseAt n.inboundConnections i x }

/-- Modelled from the spec: `DFNode::inboundConnections(inlet)` (body in `DFNode.cpp`),
the "set of (outlet) endpoints feeding that inlet". -/
def Graph.inSet (g : Graph) (p : DFNodeID) (i : Nat) : List DFNodeIOlet :=
  match g.find p with
  | some n => slotSet n.inboundConnections i
  | none => []

/-- Modelled from the spec: `DFNode::outboundConnections(outlet)` (body in
`DFNode.cpp`), the "set of (inlet) endpoints fed by that outlet". -/
def Graph.outSet (g : Graph) (p : DFNodeID) (k : Nat) : List DFNodeIOlet :=
  match g.find p with
  | some n => slotSet n.outboundConnections k
  | none => []

/-- Modelled from the spec: `DFNode::isConnected(outlet, node, inlet)` (body in
`DFNode.cpp`): the record is in the source's outbound set. -/
def Graph.isConnected (g : Graph) (s : DFNodeID) (outlet : Nat) (d : DFNodeID)
    (inlet : Nat) : Bool :=
  decide ((⟨d, inlet⟩ : DFNodeIOlet) ∈ g.outSet s outlet)

/-- Modelled from the spec: `DFNode::validateOutlet(i)` (body in `DFNode.cpp`), the
instance of `validateIOlet` on the outlet table. -/
def DFNode.validateOutlet (n : DFNode) (i : Nat) : Except DFError Unit :=
  validateIOlet n.outlets i "outlet"

/-- Modelled from the spec: `DFNode::validateInlet(i)` (body in `DFNode.cpp`), the
instance of `validateIOlet` on the inlet table. -/
def DFNode.validateInlet (n : DFNode) (i : Nat) : Except DFError Unit :=
  validateIOlet n.inlets i "inlet"

/-- Modelled from the spec: `DFNode::connect(outlet, node, inlet)` (body in
`DFNode.cpp`): "validates outletIdx against source outlet count and inletIdx against
destination inlet count (range error on failure); validates both nodes are currently
registered (reference error on failure); if the exact connection already exists, it is
a no-op (idempotent); otherwise inserts the matching pair of records into src's outbound
set and dst's inbound set". -/
def Graph.connect (g : Graph) (s : DFNodeID) (outlet : Nat) (d : DFNodeID) (inlet : Nat) :
    Except DFError Graph :=
  match g.find s, g.find d with
  | some ns, some nd =>
    match ns.validateOutlet outlet with
    | Except.error err => Except.error err
    | Except.ok _ =>
      match nd.validateInlet inlet with
      | Except.error err => Except.error err
      | Except.ok _ =>
        if g.isConnected s outlet d inlet then Except.ok g
        else
          let g1 := g.update s (DFNode.addOutbound outlet ⟨d, inlet⟩)
          Except.ok (g1.update d (DFNode.addInbound inlet ⟨s, outlet⟩))
  | _, _ => Except.error (DFError.referenceError "invalid node")

/-- Modelled from the spec: `DFNode::disconnect(outlet, node, inlet)` (body in
`DFNode.cpp`): "removes the pair of records if present; absence is not an error
(idempotent)". -/
def Graph.disconnect (g : Graph) (s : DFNodeID) (outlet : Nat) (d : DFNodeID)
    (inlet : Nat) : Graph :=
  let g1 := g.update s (DFNode.eraseOutbound outlet ⟨d, inlet⟩)
  g1.update d (DFNode.eraseInbound inlet ⟨s, outlet⟩)

/-- Modelled from the spec: `DFNode::disconnectInlet(inlet)` (body in `DFNode.cpp`):
"remove every connection touching that single slot, updating the remote peers' sets
too". -/
def Graph.disconnectInlet (g : Graph) (p : DFNodeID) (inlet : Nat) : Graph :=
  (g.inSet p inlet).foldl (fun h o => h.disconnect o.node o.index p inlet) g

/-- Modelled from the spec: `DFNode::disconnectOutlet(outlet)` (body in `DFNode.cpp`). -/
def Graph.disconnectOutlet (g : Graph) (p : DFNodeID) (outlet : Nat) : Graph :=
  (g.outSet p outlet).foldl (fun h q => h.disconnect p outlet q.node q.index) g

/-- Modelled from the spec: `DFNode::disconnect()` (body in `DFNode.cpp`): "removes
every connection touching the node (used before destruction)". -/
def Graph.disconnectAll (g : Graph) (p : DFNodeID) : Graph :=
  let g1 := (List.range (g.inletCount p)).foldl (fun h i => h.disconnectInlet p i) g
  (List.range (g1.outletCount p)).foldl (fun h k => h.disconnectOutlet p k) g1

/-- Modelled from the spec: the destructor `DFNode::~DFNode()` (body in `DFNode.cpp`):
a node is "deleted outright (all its connections torn down first)", and leaves the
registry. -/
def Graph.destroy (g : Graph) (p : DFNodeID) : Graph :=
  let g1 := g.disconnectAll p
  { g1 with byId := g1.byId.filter (fun n => n.id != p) }

/-- Modelled from the spec: the severing step of `DFNode::setNumInlets(n)` (body in
`DFNode.cpp`): "Shrinking must first sever every connection whose index falls outside
the new bound, on both this node and its remote peers, before truncating". -/
def Graph.severInlets (g : Graph) (p : DFNodeID) (n : Nat) : Graph :=
  (List.range' n (g.inletCount p - n)).foldl (fun h i => h.disconnectInlet p i) g

/-- Modelled from the spec: the severing step of `DFNode::setNumOutlets(n)` (body in
`DFNode.cpp`). -/
def Graph.severOutlets (g : Graph) (p : DFNodeID) (n : Nat) : Graph :=
  (List.range' n (g.outletCount p - n)).foldl (fun h k => h.disconnectOutlet p k) g

/-- The resizing step of `setNumInlets` on a node: `setNumIOlets` on the inlet table,
and the table of inbound sets resized along (new slots get empty sets). -/
def DFNode.resizeInlets (n : Nat) (nd : DFNode) : DFNode :=
  { nd with inlets := setNumIOlets nd.id nd.inlets n,
            inboundConnections := resize nd.inboundConnections n [] }

/-- The resizing step of `setNumOutlets` on a node. -/
def DFNode.resizeOutlets (n : Nat) (nd : DFNode) : DFNode :=
  { nd with outlets := setNumIOlets nd.id nd.outlets n,
            outboundConnections := resize nd.outboundConnections n [] }

/-- The resizing step of `setNumInlets`, on the node designated by `p`. -/
def Graph.resizeInlets (g : Graph) (p : DFNodeID) (n : Nat) : Graph :=
  g.update p (DFNode.resizeInlets n)

/-- The resizing step of `setNumOutlets`, on the node designated by `p`. -/
def Graph.resizeOutlets (g : Graph) (p : DFNodeID) (n : Nat) : Graph :=
  g.update p (DFNode.resizeOutlets n)

/-- Modelled from the spec: `DFNode::setNumInlets(n)` (declared in `DFNode.h`, line 176;
body in `DFNode.cpp`): sever, then resize with `setNumIOlets`. -/
def Graph.setNumInlets (g : Graph) (p : DFNodeID) (n : Nat) : Graph :=
  (g.severInlets p n).resizeInlets p n

/-- Modelled from the spec: `DFNode::setNumOutlets(n)` (declared in `DFNode.h`,
line 177; body in `DFNode.cpp`). -/
def Graph.setNumOutlets (g : Graph) (p : DFNodeID) (n : Nat) : Graph :=
  (g.severOutlets p n).resizeOutlets p n

/-- The assignments `x_ = x; y_ = y` on a node. -/
def DFNode.moveTo (x y : Int) (n : DFNode) : DFNode := { n with x := x, y := y }

/-- Modelled from the spec: `DFNode::setPos(x, y)` (body in `DFNode.cpp`). -/
def Graph.setPos (g : Graph) (p : DFNodeID) (x y : Int) : Graph :=
  g.update p (DFNode.moveTo x y)

/-- The inbound records of a node, as connections. -/
def DFNode.inboundList (n : DFNode) : List DFConnection :=
  (List.range n.inboundConnections.length).flatMap (fun i =>
    (slotSet n.inboundConnections i).map (fun o => ⟨o.node, o.index, n.id, i⟩))

/-- The outbound records of a node, as connections. -/
def DFNode.outboundList (n : DFNode) : List DFConnection :=
  (List.range n.outboundConnections.length).flatMap (fun k =>
    (slotSet n.outboundConnections k).map (fun q => ⟨n.id, k, q.node, q.index⟩))

/-- Modelled from the spec: `DFNode::connections(inbound, outbound)` (body in
`DFNode.cpp`), "the full connection set" of a node, as a `std::set<DFConnection>`. -/
def Graph.connections (g : Graph) (p : DFNodeID) (inbound outbound : Bool) :
    List DFConnection :=
  match g.find p with
  | some n =>
    ((if inbound then n.inboundList else []) ++
      (if outbound then n.outboundList else [])).dedup
  | none => []

/-- Modelled from the spec: `DFNode::allConnections()` (body in `DFNode.cpp`): every
connection of the graph, read off the outbound sets. -/
def Graph.allConnections (g : Graph) : List DFConnection :=
  (g.byId.flatMap (fun n => n.outboundList)).dedup

/-- What `saveGraph` writes: "for every node, its definition text and position; for
every connection, the four-tuple by node identity". -/
structure Snapshot where
  nodes : List (DFNodeID × String × Int × Int)
  connections : List DFConnection
deriving DecidableEq, Repr

/-- Modelled from the spec: the description produced by `DFNode::saveGraph` (body in
`DFNode.cpp`) for the current graph. -/
def Graph.snapshot (g : Graph) : Snapshot :=
  ⟨g.byId.map (fun n => (n.id, n.text, n.x, n.y)), g.allConnections⟩

/-- What the factory's catalog of node kinds decides for a command: the parsed
arguments and the shape of the node. -/
structure NodeKind where
  args : List String
  inlets : Nat
  outlets : Nat
deriving DecidableEq, Repr

/-- The catalog of node kinds (`DFNodeFactory.h`, outside the repository excerpt):
for a command, either a node kind or the message of the construction error. -/
abbrev Catalog := String → Except String NodeKind

/-- Modelled from the spec: the node built by the constructor `DFNode::DFNode(args)` and
the factory (bodies not in the excerpt) for a node kind: "a fully-formed Node with its
slot counts initialized", no connection, the command as its definition. -/
def DFNode.build (id : DFNodeID) (kind : NodeKind) (cmd : String) (x y : Int) : DFNode :=
  { id := id, x := x, y := y, args := kind.args, text := cmd,
    inlets := setNumIOlets id [] kind.inlets,
    outlets := setNumIOlets id [] kind.outlets,
    inboundConnections := resize [] kind.inlets [],
    outboundConnections := resize [] kind.outlets [] }

/-- Modelled from the spec: registration of a new node, `register(node) -> id`
("allocates the next identity, stores the node, returns the identity. Never fails"). -/
def Graph.register (g : Graph) (kind : NodeKind) (cmd : String) (x y : Int) :
    Graph × DFNodeID :=
  ({ byId := g.byId ++ [DFNode.build g.nextNodeId kind cmd x y],
     nextNodeId := g.nextNodeId + 1 }, g.nextNodeId)

/-- Modelled from the spec: `nodeFactory.create(cmd, x, y)` (`DFNodeFactory.h`, not in
the excerpt): "given (definition text, x, y), either return a fully-formed Node with its
slot counts initialized, or fail with a descriptive error"; a failure leaves no node
behind. -/
def Graph.create (catalog : Catalog) (g : Graph) (cmd : String) (x y : Int) :
    Except DFError (Graph × DFNodeID) :=
  match catalog cmd with
  | Except.error msg => Except.error (DFError.constructionError msg)
  | Except.ok kind => Except.ok (g.register kind cmd x y)

/-- The text of a `std::runtime_error`, `ex.what()`. -/
def DFError.what : DFError → String
  | DFError.rangeError msg => msg
  | DFError.referenceError msg => msg
  | DFError.constructionError msg => msg

/-! ## The editor side (`DFEventsListener.cpp`) -/

/-- What the listener reads and writes of a `QDataflowModelNode`: its text, its position
and its dynamic property `"DFNode"` (`none` is the invalid `QVariant()`). -/
structure QDataflowModelNode where
  text : String
  pos : Int × Int
  property : Option DFNodeID
deriving DecidableEq, Repr

/-- The calls a handler makes, in the order it makes them. -/
inductive Call where
  | create (cmd : String) (x y : Int)
  | setProperty (node : Nat) (value : Option DFNodeID)
  | delete (p : DFNodeID)
  | setPos (p : DFNodeID) (x y : Int)
  | connect (s : DFNodeID) (outlet : Nat) (d : DFNodeID) (inlet : Nat)
  | disconnect (s : DFNodeID) (outlet : Nat) (d : DFNodeID) (inlet : Nat)
  | setNodeInfo (node : Nat) (text : String) (inlets outlets : Nat) (a b : Bool)
  | statusbarMessage (msg : String)
  | graphChanged
  | saveGraph (filename : String) (saved : Snapshot)
deriving DecidableEq, Repr

/-- The state the handlers act on: the dataflow graph, the editor's nodes, the log of
the calls made so far, and a ghost list `faults` of the calls that misused a node
pointer when they were made (see `World.faulty`). -/
structure World where
  graph : Graph
  editor : List QDataflowModelNode
  trace : List Call
  faults : List Call
deriving DecidableEq, Repr

/-- The last call logged is a call of the factory. -/
def World.justCreated (w : World) : Bool :=
  match w.trace.getLast? with
  | some (Call.create _ _ _) => true
  | _ => false

/-- A call misuses a node pointer in the state `w` when it is made on, or passes to the
wiring engine, a node that is not live (`delete`, `setPos`, `connect`, `disconnect`),
when it destroys a node that an editor node is still attached to, or when it attaches an
editor node to a node that is not live or not right after a call of the factory (which
returned, since the handler went on). -/
def World.faulty (w : World) : Call → Bool
  | Call.delete p =>
    (w.graph.find p).isNone || w.editor.any (fun nd => decide (nd.property = some p))
  | Call.setPos p _ _ => (w.graph.find p).isNone
  | Call.connect s _ d _ => (w.graph.find s).isNone || (w.graph.find d).isNone
  | Call.disconnect s _ d _ => (w.graph.find s).isNone || (w.graph.find d).isNone
  | Call.setProperty _ (some p) => (w.graph.find p).isNone || !w.justCreated
  | _ => false

/-- The state a handler leaves, and the exception that propagated out of it, if any. -/
structure Outcome where
  world : World
  raised : Option DFError
deriving DecidableEq, Repr

/-- Append a call to the log; a call that misuses a node pointer is also recorded as a
fault. -/
def World.log (w : World) (c : Call) : World :=
  { w with trace := w.trace ++ [c],
           faults := if w.faulty c then w.faults ++ [c] else w.faults }

/-- The property `"DFNode"` of the editor node `e` becomes `v`. -/
def assignProperty (editor : List QDataflowModelNode) (e : Nat) (v : Option DFNodeID) :
    List QDataflowModelNode :=
  match editor[e]? with
  | some nd => editor.set e { nd with property := v }
  | none => editor

/-- The call `node->setProperty("DFNode", v)`. -/
def World.setProperty (w : World) (e : Nat) (v : Option DFNodeID) : World :=
  ({ w with editor := assignProperty w.editor e v } : World).log (Call.setProperty e v)

/-- The slot `DFEventsListener::onGraphChanged`, lines 182-186. -/
def onGraphChanged (w : World) : World :=
  w.log (Call.saveGraph "" w.graph.snapshot)

/-- The statement `emit graphChanged()`: the constructor (line 53) connects the signal
to `onGraphChanged` of the same object, so the slot runs inside the emit. -/
def emitGraphChanged (w : World) : World :=
  onGraphChanged (w.log Call.graphChanged)

/-- The slot `DFEventsListener::onNodeAdded`, lines 56-69. -/
def onNodeAdded (catalog : Catalog) (w : World) (e : Nat) : Outcome :=
  match w.editor[e]? with
  | none => ⟨w, none⟩
  | some node =>
    if node.text = "" then
      ⟨w.log (Call.setNodeInfo e "" 0 0 false true), none⟩
    else
      let cmd := node.text
      let w1 := w.log (Call.create cmd node.pos.1 node.pos.2)
      match w.graph.create catalog cmd node.pos.1 node.pos.2 with
      | Except.error err => ⟨w1, some err⟩
      | Except.ok (g, dfnode) =>
        let w2 := ({ w1 with graph := g } : World).setProperty e (some dfnode)
        ⟨emitGraphChanged w2, none⟩

/-- The expression `p == oldnode ? dfnode : p` of lines 140-141; `oldnode` is `none` for
the null pointer. -/
def retarget (oldnode : Option DFNodeID) (dfnode : DFNodeID) (p : DFNodeID) : DFNodeID :=
  if some p = oldnode then dfnode else p

/-- The loop "restore connections" of `onNodeTextChanged`, lines 138-145. An exception
of `connect` leaves the loop and the handler. -/
def restoreConnections (oldnode : Option DFNodeID) (dfnode : DFNodeID) :
    List DFConnection → World → Outcome
  | [], w => ⟨w, none⟩
  | c :: cs, w =>
    let s := retarget oldnode dfnode c.src
    let d := retarget oldnode dfnode c.dst
    if w.graph.outletCount s ≤ c.srcOutlet then restoreConnections oldnode dfnode cs w
    else if w.graph.inletCount d ≤ c.dstInlet then restoreConnections oldnode dfnode cs w
    else
      let w1 := w.log (Call.connect s c.srcOutlet d c.dstInlet)
      match w.graph.connect s c.srcOutlet d c.dstInlet with
      | Except.error err => ⟨w1, some err⟩
      | Except.ok g => restoreConnections oldnode dfnode cs { w1 with graph := g }

/-- The block "backup connections" of `onNodeTextChanged`, lines 97-109: `none` is the
early return of line 103, otherwise the old node, its captured connections and the
state after its destruction. -/
def backupConnections (w : World) (e : Nat) (node : QDataflowModelNode) :
    Option (Option DFNodeID × List DFConnection × World) :=
  match node.property with
  | none => some (none, [], w)
  | some dfnode =>
    if w.graph.str dfnode = node.text then none
    else
      let oldconns := w.graph.connections dfnode true true
      let w1 := w.setProperty e none
      let w2 := w1.log (Call.delete dfnode)
      some (some dfnode, oldconns, { w2 with graph := w2.graph.destroy dfnode })

/-- The slot `DFEventsListener::onNodeTextChanged`, lines 93-146; the text read is
`node->text()`, the argument `text` is not used. -/
def onNodeTextChanged (catalog : Catalog) (w : World) (e : Nat) (_text : String) :
    Outcome :=
  match w.editor[e]? with
  | none => ⟨w, none⟩
  | some node =>
    match backupConnections w e node with
    | none => ⟨w, none⟩
    | some (oldnode, oldconns, w1) =>
      if node.text = "" then
        ⟨emitGraphChanged (w1.log (Call.setNodeInfo e "" 0 0 false true)), none⟩
      else
        let cmd := node.text
        let w2 := w1.log (Call.create cmd node.pos.1 node.pos.2)
        match w1.graph.create catalog cmd node.pos.1 node.pos.2 with
        | Except.error ex =>
          let w3 := w2.log (Call.statusbarMessage
            ("Dataflow: object creation error: " ++ ex.what))
          let w4 := w3.log (Call.setNodeInfo e node.text 0 0 false true)
          ⟨emitGraphChanged w4, none⟩
        | Except.ok (g, dfnode) =>
          let w3 := ({ w2 with graph := g } : World).setProperty e (some dfnode)
          let w4 := w3.log (Call.setNodeInfo e (g.str dfnode) (g.inletCount dfnode)
            (g.outletCount dfnode) true false)
          let w5 := emitGraphChanged w4
          restoreConnections oldnode dfnode oldconns w5

/-- The record of connection `c` on its source: `(c.dst, c.dstInlet)` is in the outbound
set of outlet `c.srcOutlet` of node `c.src`. -/
def Graph.outRec (g : Graph) (c : DFConnection) : Prop :=
  (⟨c.dst, c.dstInlet⟩ : DFNodeIOlet) ∈ g.outSet c.src c.srcOutlet

/-- The record of connection `c` on its destination: `(c.src, c.srcOutlet)` is in the
inbound set of inlet `c.dstInlet` of node `c.dst`. -/
def Graph.inRec (g : Graph) (c : DFConnection) : Prop :=
  (⟨c.src, c.srcOutlet⟩ : DFNodeIOlet) ∈ g.inSet c.dst c.dstInlet

instance (g : Graph) (c : DFConnection) : Decidable (g.outRec c) :=
  inferInstanceAs (Decidable ((⟨c.dst, c.dstInlet⟩ : DFNodeIOlet) ∈ g.outSet c.src c.srcOutlet))

instance (g : Graph) (c : DFConnection) : Decidable (g.inRec c) :=
  inferInstanceAs (Decidable ((⟨c.src, c.srcOutlet⟩ : DFNodeIOlet) ∈ g.inSet c.dst c.dstInlet))

/-- What the wiring operations leave alone in a node: its slot tables and the sizes of
its tables of connection sets. -/
def DFNode.shape (n : DFNode) : List DFNodeIOlet × List DFNodeIOlet × Nat × Nat :=
  (n.inlets, n.outlets, n.inboundConnections.length, n.outboundConnections.length)

/-- The shape of the node designated by `p`, if it is live. -/
def Graph.shapeOf (g : Graph) (p : DFNodeID) :
    Option (List DFNodeIOlet × List DFNodeIOlet × Nat × Nat) :=
  (g.find p).map DFNode.shape

/-- Well-formed graph: identities below the counter, one connection set per slot, and
every connection recorded on both of its end nodes ("for every recorded connection, the
matching reverse record exists on the other endpoint"). -/
structure Graph.WF (g : Graph) : Prop where
  fresh : ∀ p, g.live p → p < g.nextNodeId
  inLen : ∀ p n, g.find p = some n → n.inboundConnections.length = n.inlets.length
  outLen : ∀ p n, g.find p = some n → n.outboundConnections.length = n.outlets.length
  symm : ∀ c, g.outRec c ↔ g.inRec c

/-- The second graph has the same counter and the same node shapes as the first. -/
def Graph.Frame (g g' : Graph) : Prop :=
  g'.nextNodeId = g.nextNodeId ∧ ∀ q, g'.shapeOf q = g.shapeOf q

/-- The second graph is the first one with exactly the connections satisfying `P`
removed, on both end nodes. -/
def Graph.Removes (g g' : Graph) (P : DFConnection → Prop) : Prop :=
  g.Frame g' ∧ (∀ c, g'.outRec c ↔ g.outRec c ∧ ¬ P c) ∧ (∀ c, g'.inRec c ↔ g.inRec c ∧ ¬ P c)

/-- Every slot index referenced by a stored connection is below the current slot count
of the node it refers to. -/
def Graph.IndexValid (g : Graph) : Prop :=
  ∀ c, g.outRec c ∨ g.inRec c →
    c.srcOutlet < g.outletCount c.src ∧ c.dstInlet < g.inletCount c.dst

/-- Every attached-node property of the editor refers to a live node. -/
def World.Attached (w : World) : Prop :=
  ∀ (e : Nat) (nd : QDataflowModelNode) (p : DFNodeID),
    w.editor[e]? = some nd → nd.property = some p → w.graph.live p

/-- No two editor nodes are attached to the same node. -/
def World.Unshared (w : World) : Prop :=
  ∀ (e1 e2 : Nat) (n1 n2 : QDataflowModelNode) (p : DFNodeID),
    w.editor[e1]? = some n1 → w.editor[e2]? = some n2 →
    n1.property = some p → n2.property = some p → e1 = e2

/-- No editor node is attached to the node `p`. -/
def World.Detached (w : World) (p : DFNodeID) : Prop :=
  ∀ (e : Nat) (nd : QDataflowModelNode), w.editor[e]? = some nd → nd.property ≠ some p

/-- The invariant of the listener: the graph is well formed, every attached-node
property refers to a live node, and no two editor nodes share an attached node. -/
def World.Inv (w : World) : Prop := w.graph.WF ∧ w.Attached ∧ w.Unshared

/-- The invariant holds and the ghost list of faults is `f`. -/
def World.Ok (f : List Call) (w : World) : Prop := w.Inv ∧ w.faults = f

/-- The connection the restore loop tries to re-establish for the captured connection
`c`: the replacement `dfnode` wherever the old node was an endpoint. -/
def DFConnection.retargeted (oldnode : Option DFNodeID) (dfnode : DFNodeID) (c : DFConnection) :
    DFConnection :=
  ⟨retarget oldnode dfnode c.src, c.srcOutlet, retarget oldnode dfnode c.dst, c.dstInlet⟩

/-- The indices of the retargeted connection are in range in the graph `g`: neither of
the two skip tests of lines 142-143 fires. -/
def stillValid (g : Graph) (oldnode : Option DFNodeID) (dfnode : DFNodeID)
    (c : DFConnection) : Prop :=
  c.srcOutlet < g.outletCount (retarget oldnode dfnode c.src) ∧
    c.dstInlet < g.inletCount (retarget oldnode dfnode c.dst)

instance (g : Graph) (oldnode : Option DFNodeID) (dfnode : DFNodeID) (c : DFConnection) :
    Decidable (stillValid g oldnode dfnode c) :=
  inferInstanceAs (Decidable (_ ∧ _))

/-- The call `s->connect(c.srcOutlet, d, c.dstInlet)` of line 144 for the captured
connection `c`. -/
def connectCall (oldnode : Option DFNodeID) (dfnode : DFNodeID) (c : DFConnection) : Call :=
  Call.connect (retarget oldnode dfnode c.src) c.srcOutlet (retarget oldnode dfnode c.dst)
    c.dstInlet

/-- The calls made by the handler that took the state `w` to `out`: the log of `out`
without the log of `w`. -/
def newCalls (w : World) (out : Outcome) : List Call := out.world.trace.drop w.trace.length

/-- A small catalog of node kinds: `osc` (2 inlets, 1 outlet), `gain` (1 inlet,
1 outlet), `sink` (1 inlet, no outlet); any other command is rejected. -/
def exampleCatalog : Catalog := fun cmd =>
  if cmd = "osc" then Except.ok ⟨["osc"], 2, 1⟩
  else if cmd = "gain" then Except.ok ⟨["gain"], 1, 1⟩
  else if cmd = "sink" then Except.ok ⟨["sink"], 1, 0⟩
  else Except.error "unknown object"

/-- The graph with an `osc` node 0 and a `gain` node 1, wired both ways: outlet 0 of
node 0 to inlet 0 of node 1, and outlet 0 of node 1 to inlet 1 of node 0. -/
def exampleGraph : Graph :=
  { byId :=
      [{ id := 0, x := 0, y := 0, args := ["osc"], text := "osc",
         inlets := [⟨0, 0⟩, ⟨0, 1⟩], outlets := [⟨0, 0⟩],
         inboundConnections := [[], [⟨1, 0⟩]], outboundConnections := [[⟨1, 0⟩]] },
       { id := 1, x := 100, y := 0, args := ["gain"], text := "gain",
         inlets := [⟨1, 0⟩], outlets := [⟨1, 0⟩],
         inboundConnections := [[⟨0, 0⟩]], outboundConnections := [[⟨0, 1⟩]] }],
    nextNodeId := 2 }

/-- The example graph with two editor nodes attached to its two nodes, showing the
texts `t0` and `t1`. -/
def exampleWorld (t0 t1 : String) : World :=
  { graph := exampleGraph,
    editor := [⟨t0, (0, 0), some 0⟩, ⟨t1, (100, 0), some 1⟩],
    trace := [], faults := [] }

/-- A state with one unattached editor node showing a command the catalog rejects. -/
def bogusWorld : World :=
  { graph := Graph.empty, editor := [⟨"bogus", (0, 0), none⟩], trace := [], faults := [] }

/-! ## Slot tables: lemmas -/

theorem length_resize {α : Type} (v : List α) (n : Nat) (d : α) :
    (resize v n d).length = n := by
  simp [resize]; omega

theorem getElem?_resize_lt {α : Type} (v : List α) (n : Nat) (d : α) (i : Nat)
    (h1 : i < v.length) (h2 : i < n) : (resize v n d)[i]? = v[i]? := by
  unfold resize
  rw [List.getElem?_append_left (by simp; omega)]
  simp [List.getElem?_take, h2]

theorem length_foldl_set (this : DFNodeID) (l : List Nat) (v : List DFNodeIOlet) :
    (l.foldl (fun w i => w.set i ⟨this, i⟩) v).length = v.length := by
  induction l generalizing v with
  | nil => rfl
  | cons a l ih => simp [ih]

theorem getElem?_foldl_set (this : DFNodeID) (k s : Nat) (v : List DFNodeIOlet) (i : Nat) :
    ((List.range' s k).foldl (fun w j => w.set j ⟨this, j⟩) v)[i]? =
      if s ≤ i ∧ i < s + k ∧ i < v.length then some ⟨this, i⟩ else v[i]? := by
  induction k generalizing s v with
  | zero =>
    simp only [List.range'_zero, List.foldl_nil]
    rw [if_neg (by omega)]
  | succ k ih =>
    rw [List.range'_succ, List.foldl_cons, ih]
    simp only [List.length_set]
    by_cases h1 : s + 1 ≤ i ∧ i < s + 1 + k ∧ i < v.length
    · rw [if_pos h1, if_pos (by omega)]
    · rw [if_neg h1]
      by_cases h2 : s = i
      · subst h2
        by_cases h3 : s < v.length
        · rw [if_pos (by omega)]; simp [h3]
        · rw [if_neg (by omega), List.getElem?_eq_none (by simp; omega),
            List.getElem?_eq_none (by omega)]
      · rw [if_neg (by omega), List.getElem?_set_ne h2]

theorem length_setNumIOlets (this : DFNodeID) (v : List DFNodeIOlet) (n : Nat) :
    (setNumIOlets this v n).length = n := by
  simp [setNumIOlets, length_foldl_set, length_resize]

theorem getElem?_setNumIOlets (this : DFNodeID) (v : List DFNodeIOlet) (n i : Nat) :
    (setNumIOlets this v n)[i]? =
      if i < n then (if i < v.length then v[i]? else some ⟨this, i⟩) else none := by
  unfold setNumIOlets
  simp only [getElem?_foldl_set, length_resize]
  by_cases hn : i < n
  · rw [if_pos hn]
    by_cases hv : i < v.length
    · rw [if_pos hv, if_neg (by omega), getElem?_resize_lt v n _ i hv hn]
    · rw [if_neg hv, if_pos (by omega)]
  · rw [if_neg hn, if_neg (by omega)]
    exact List.getElem?_eq_none (by rw [length_resize]; omega)

theorem slotsOk_setNumIOlets (this : DFNodeID) (v : List DFNodeIOlet) (n : Nat)
    (h : SlotsOk this v) : SlotsOk this (setNumIOlets this v n) := by
  intro i hi
  rw [length_setNumIOlets] at hi
  rw [getElem?_setNumIOlets, if_pos hi]
  by_cases hv : i < v.length
  · rw [if_pos hv]; exact h i hv
  · rw [if_neg hv]

theorem slotsOk_foldl (this : DFNodeID) (ns : List Nat) (v : List DFNodeIOlet)
    (h : SlotsOk this v) : SlotsOk this (ns.foldl (setNumIOlets this) v) := by
  induction ns generalizing v with
  | nil => exact h
  | cons n ns ih => exact ih _ (slotsOk_setNumIOlets this v n h)

/-! ## Tables of connection sets: lemmas -/

theorem slotSet_eq (t : List (List DFNodeIOlet)) (k : Nat) :
    slotSet t k = (t[k]?).getD [] := by
  simp [slotSet, List.getD_eq_getElem?_getD]

theorem slotSet_of_le (t : List (List DFNodeIOlet)) (k : Nat) (h : t.length ≤ k) :
    slotSet t k = [] := by
  rw [slotSet_eq, List.getElem?_eq_none h]; rfl

theorem slotSet_set (t : List (List DFNodeIOlet)) (k j : Nat) (v : List DFNodeIOlet) :
    slotSet (t.set k v) j = if j = k ∧ k < t.length then v else slotSet t j := by
  simp only [slotSet_eq, List.getElem?_set]
  by_cases h : k = j
  · subst h
    by_cases h2 : k < t.length
    · simp [h2]
    · simp [h2, List.getElem?_eq_none (Nat.le_of_not_lt h2)]
  · have h' : ¬ j = k := fun e => h e.symm
    simp [h, h']

theorem length_insertAt (t : List (List DFNodeIOlet)) (k : Nat) (x : DFNodeIOlet) :
    (insertAt t k x).length = t.length := by
  unfold insertAt; split <;> simp

theorem length_eraseAt (t : List (List DFNodeIOlet)) (k : Nat) (x : DFNodeIOlet) :
    (eraseAt t k x).length = t.length := by
  simp [eraseAt]

theorem mem_slotSet_insertAt (t : List (List DFNodeIOlet)) (k j : Nat) (x y : DFNodeIOlet) :
    y ∈ slotSet (insertAt t k x) j ↔ y ∈ slotSet t j ∨ (j = k ∧ k < t.length ∧ y = x) := by
  unfold insertAt
  by_cases hx : x ∈ slotSet t k
  · rw [if_pos hx]
    constructor
    · exact Or.inl
    · rintro (h | ⟨rfl, _, rfl⟩)
      · exact h
      · exact hx
  · rw [if_neg hx, slotSet_set]
    by_cases hj : j = k ∧ k < t.length
    · rw [if_pos hj]
      obtain ⟨rfl, hk⟩ := hj
      simp [hk]
    · rw [if_neg hj]
      constructor
      · exact Or.inl
      · rintro (h | ⟨h1, h2, _⟩)
        · exact h
        · exact absurd ⟨h1, h2⟩ hj

theorem mem_slotSet_eraseAt (t : List (List DFNodeIOlet)) (k j : Nat) (x y : DFNodeIOlet) :
    y ∈ slotSet (eraseAt t k x) j ↔ y ∈ slotSet t j ∧ ¬ (j = k ∧ y = x) := by
  unfold eraseAt
  rw [slotSet_set]
  by_cases hj : j = k ∧ k < t.length
  · rw [if_pos hj]
    obtain ⟨rfl, hk⟩ := hj
    simp
  · rw [if_neg hj]
    constructor
    · intro h
      refine ⟨h, ?_⟩
      rintro ⟨rfl, _⟩
      by_cases hk : j < t.length
      · exact hj ⟨rfl, hk⟩
      · rw [slotSet_of_le t j (Nat.le_of_not_lt hk)] at h
        simp at h
    · exact fun h => h.1

theorem slotSet_resize (t : List (List DFNodeIOlet)) (n j : Nat) :
    slotSet (resize t n []) j = if j < n then slotSet t j else [] := by
  simp only [slotSet_eq, resize]
  by_cases hj : j < n
  · rw [if_pos hj]
    by_cases ht : j < t.length
    · rw [List.getElem?_append_left (by simp; omega)]
      simp [List.getElem?_take, hj]
    · rw [List.getElem?_append_right (by simp; omega)]
      rw [List.getElem?_eq_none (Nat.le_of_not_lt ht)]
      simp only [List.getElem?_replicate]
      split <;> rfl
  · rw [if_neg hj]
    rw [List.getElem?_eq_none (by simp; omega)]
    rfl

/-! ## Registry lookup: lemmas -/

theorem Graph.find_id {g : Graph} {p : DFNodeID} {n : DFNode} (h : g.find p = some n) :
    n.id = p := by
  have := List.find?_some h
  simpa using this

theorem Graph.find_update (g : Graph) (p q : DFNodeID) (f : DFNode → DFNode)
    (hf : ∀ n, (f n).id = n.id) :
    (g.update p f).find q = if q = p then (g.find q).map f else g.find q := by
  unfold Graph.find Graph.update
  simp only
  induction g.byId with
  | nil => simp
  | cons a l ih =>
    simp only [List.map_cons, List.find?_cons]
    by_cases ha : a.id = p
    · simp only [if_pos ha, hf]
      by_cases hq : a.id = q
      · have : q = p := by rw [← hq, ha]
        simp [hq, this]
      · have hb : (a.id == q) = false := by simpa using hq
        simp only [hb]
        exact ih
    · simp only [if_neg ha]
      by_cases hq : a.id = q
      · have : ¬ q = p := by rw [← hq]; exact ha
        simp [hq, this]
      · have hb : (a.id == q) = false := by simpa using hq
        simp only [hb]
        exact ih

theorem Graph.nextNodeId_update (g : Graph) (p : DFNodeID) (f : DFNode → DFNode) :
    (g.update p f).nextNodeId = g.nextNodeId := rfl

/-! ## Frames -/

theorem Graph.Frame.refl (g : Graph) : g.Frame g := ⟨rfl, fun _ => rfl⟩

theorem Graph.Frame.trans {g g1 g2 : Graph} (h1 : g.Frame g1) (h2 : g1.Frame g2) :
    g.Frame g2 :=
  ⟨h2.1.trans h1.1, fun q => (h2.2 q).trans (h1.2 q)⟩

theorem Graph.live_iff_shapeOf (g : Graph) (p : DFNodeID) :
    g.live p ↔ (g.shapeOf p).isSome = true := by
  simp [Graph.live, Graph.shapeOf]

theorem Graph.Frame.live {g g' : Graph} (h : g.Frame g') (p : DFNodeID) :
    g'.live p ↔ g.live p := by
  rw [Graph.live_iff_shapeOf, Graph.live_iff_shapeOf, h.2]

theorem Graph.inletCount_eq_shapeOf (g : Graph) (p : DFNodeID) :
    g.inletCount p = ((g.shapeOf p).map (fun s => s.1.length)).getD 0 := by
  unfold Graph.inletCount Graph.shapeOf
  cases g.find p <;> rfl

theorem Graph.outletCount_eq_shapeOf (g : Graph) (p : DFNodeID) :
    g.outletCount p = ((g.shapeOf p).map (fun s => s.2.1.length)).getD 0 := by
  unfold Graph.outletCount Graph.shapeOf
  cases g.find p <;> rfl

theorem Graph.Frame.inletCount {g g' : Graph} (h : g.Frame g') (p : DFNodeID) :
    g'.inletCount p = g.inletCount p := by
  rw [Graph.inletCount_eq_shapeOf, Graph.inletCount_eq_shapeOf, h.2]

theorem Graph.Frame.outletCount {g g' : Graph} (h : g.Frame g') (p : DFNodeID) :
    g'.outletCount p = g.outletCount p := by
  rw [Graph.outletCount_eq_shapeOf, Graph.outletCount_eq_shapeOf, h.2]

theorem Graph.shapeOf_find {g g' : Graph} {p : DFNodeID} {n : DFNode}
    (h : g'.shapeOf p = g.shapeOf p) (hn : g'.find p = some n) :
    ∃ m, g.find p = some m ∧ m.shape = n.shape := by
  unfold Graph.shapeOf at h
  rw [hn] at h
  cases hm : g.find p with
  | none => rw [hm] at h; cases h
  | some m =>
    rw [hm] at h
    exact ⟨m, rfl, by simpa using h.symm⟩

/-! ## Records under the elementary updates -/

theorem Graph.mem_outSet_iff (g : Graph) (p : DFNodeID) (k : Nat) (y : DFNodeIOlet) :
    y ∈ g.outSet p k ↔ ∃ n, g.find p = some n ∧ y ∈ slotSet n.outboundConnections k := by
  unfold Graph.outSet
  cases g.find p <;> simp

theorem Graph.mem_inSet_iff (g : Graph) (p : DFNodeID) (i : Nat) (y : DFNodeIOlet) :
    y ∈ g.inSet p i ↔ ∃ n, g.find p = some n ∧ y ∈ slotSet n.inboundConnections i := by
  unfold Graph.inSet
  cases g.find p <;> simp

theorem Graph.mem_outSet_disconnect (g : Graph) (s : DFNodeID) (o : Nat) (d : DFNodeID)
    (i : Nat) (q : DFNodeID) (k : Nat) (y : DFNodeIOlet) :
    y ∈ (g.disconnect s o d i).outSet q k ↔
      y ∈ g.outSet q k ∧ ¬ (q = s ∧ k = o ∧ y = ⟨d, i⟩) := by
  unfold Graph.outSet Graph.disconnect
  rw [Graph.find_update _ d q (DFNode.eraseInbound i ⟨s, o⟩) (fun _ => rfl),
    Graph.find_update _ s q (DFNode.eraseOutbound o ⟨d, i⟩) (fun _ => rfl)]
  cases g.find q with
  | none => simp
  | some n =>
    by_cases hd : q = d <;> by_cases hs : q = s <;> (try subst hd) <;> (try subst hs) <;>
      simp [*, DFNode.eraseInbound, DFNode.eraseOutbound, mem_slotSet_eraseAt]

theorem Graph.mem_inSet_disconnect (g : Graph) (s : DFNodeID) (o : Nat) (d : DFNodeID)
    (i : Nat) (q : DFNodeID) (j : Nat) (y : DFNodeIOlet) :
    y ∈ (g.disconnect s o d i).inSet q j ↔
      y ∈ g.inSet q j ∧ ¬ (q = d ∧ j = i ∧ y = ⟨s, o⟩) := by
  unfold Graph.inSet Graph.disconnect
  rw [Graph.find_update _ d q (DFNode.eraseInbound i ⟨s, o⟩) (fun _ => rfl),
    Graph.find_update _ s q (DFNode.eraseOutbound o ⟨d, i⟩) (fun _ => rfl)]
  cases g.find q with
  | none => simp
  | some n =>
    by_cases hd : q = d <;> by_cases hs : q = s <;> (try subst hd) <;> (try subst hs) <;>
      simp [*, DFNode.eraseInbound, DFNode.eraseOutbound, mem_slotSet_eraseAt]

theorem Graph.frame_disconnect (g : Graph) (s : DFNodeID) (o : Nat) (d : DFNodeID)
    (i : Nat) : g.Frame (g.disconnect s o d i) := by
  refine ⟨rfl, fun q => ?_⟩
  unfold Graph.shapeOf Graph.disconnect
  rw [Graph.find_update _ d q (DFNode.eraseInbound i ⟨s, o⟩) (fun _ => rfl),
    Graph.find_update _ s q (DFNode.eraseOutbound o ⟨d, i⟩) (fun _ => rfl)]
  cases g.find q with
  | none => simp
  | some n =>
    by_cases hd : q = d <;> by_cases hs : q = s <;> (try subst hd) <;> (try subst hs) <;>
      simp [*, DFNode.eraseInbound, DFNode.eraseOutbound, DFNode.shape, length_eraseAt]

theorem DFConnection.eq_iff (c : DFConnection) (s : DFNodeID) (o : Nat) (d : DFNodeID)
    (i : Nat) : c = ⟨s, o, d, i⟩ ↔ c.src = s ∧ c.srcOutlet = o ∧ c.dst = d ∧ c.dstInlet = i := by
  cases c; simp

theorem Graph.removes_disconnect (g : Graph) (s : DFNodeID) (o : Nat) (d : DFNodeID)
    (i : Nat) : g.Removes (g.disconnect s o d i) (fun c => c = ⟨s, o, d, i⟩) := by
  refine ⟨g.frame_disconnect s o d i, fun c => ?_, fun c => ?_⟩
  · unfold Graph.outRec
    rw [Graph.mem_outSet_disconnect]
    simp only [DFConnection.eq_iff, DFNodeIOlet.mk.injEq]
  · unfold Graph.inRec
    rw [Graph.mem_inSet_disconnect]
    simp only [DFConnection.eq_iff, DFNodeIOlet.mk.injEq]
    tauto

/-! ## Removal of connections -/

theorem Graph.Removes.nothing (g : Graph) : g.Removes g (fun _ => False) :=
  ⟨Graph.Frame.refl g, fun _ => by simp, fun _ => by simp⟩

theorem Graph.Removes.andThen {g g1 g2 : Graph} {P Q : DFConnection → Prop}
    (h1 : g.Removes g1 P) (h2 : g1.Removes g2 Q) : g.Removes g2 (fun c => P c ∨ Q c) := by
  refine ⟨h1.1.trans h2.1, fun c => ?_, fun c => ?_⟩
  · rw [h2.2.1, h1.2.1]; tauto
  · rw [h2.2.2, h1.2.2]; tauto

theorem Graph.Removes.congr {g g' : Graph} {P Q : DFConnection → Prop}
    (h : g.Removes g' P) (hPQ : ∀ c, g.outRec c ∨ g.inRec c → (P c ↔ Q c)) :
    g.Removes g' Q := by
  refine ⟨h.1, fun c => ?_, fun c => ?_⟩
  · rw [h.2.1]
    constructor
    · rintro ⟨h1, h2⟩; exact ⟨h1, fun hq => h2 ((hPQ c (Or.inl h1)).2 hq)⟩
    · rintro ⟨h1, h2⟩; exact ⟨h1, fun hp => h2 ((hPQ c (Or.inl h1)).1 hp)⟩
  · rw [h.2.2]
    constructor
    · rintro ⟨h1, h2⟩; exact ⟨h1, fun hq => h2 ((hPQ c (Or.inr h1)).2 hq)⟩
    · rintro ⟨h1, h2⟩; exact ⟨h1, fun hp => h2 ((hPQ c (Or.inr h1)).1 hp)⟩

theorem Graph.Removes.wf {g g' : Graph} {P : DFConnection → Prop}
    (h : g.Removes g' P) (hg : g.WF) : g'.WF where
  fresh := fun p hp => by
    rw [h.1.1]; exact hg.fresh p ((h.1.live p).1 hp)
  inLen := fun p n hn => by
    obtain ⟨m, hm, hs⟩ := Graph.shapeOf_find (h.1.2 p) hn
    have := hg.inLen p m hm
    simp only [DFNode.shape, Prod.mk.injEq] at hs
    rw [← hs.1, ← hs.2.2.1]; exact this
  outLen := fun p n hn => by
    obtain ⟨m, hm, hs⟩ := Graph.shapeOf_find (h.1.2 p) hn
    have := hg.outLen p m hm
    simp only [DFNode.shape, Prod.mk.injEq] at hs
    rw [← hs.2.1, ← hs.2.2.2]; exact this
  symm := fun c => by
    rw [h.2.1, h.2.2, hg.symm]

theorem Graph.WF.indexValid {g : Graph} (hg : g.WF) : g.IndexValid := by
  intro c hc
  have ho : g.outRec c := hc.elim id (hg.symm c).2
  have hi : g.inRec c := (hg.symm c).1 ho
  constructor
  · unfold Graph.outRec at ho
    rw [Graph.mem_outSet_iff] at ho
    obtain ⟨n, hn, hy⟩ := ho
    unfold Graph.outletCount
    rw [hn]
    simp only
    rw [← hg.outLen _ n hn]
    by_contra hlt
    rw [slotSet_of_le _ _ (Nat.le_of_not_lt hlt)] at hy
    simp at hy
  · unfold Graph.inRec at hi
    rw [Graph.mem_inSet_iff] at hi
    obtain ⟨n, hn, hy⟩ := hi
    unfold Graph.inletCount
    rw [hn]
    simp only
    rw [← hg.inLen _ n hn]
    by_contra hlt
    rw [slotSet_of_le _ _ (Nat.le_of_not_lt hlt)] at hy
    simp at hy

theorem Graph.removes_foldl_disconnect (L : List DFConnection) (g : Graph) :
    g.Removes (L.foldl (fun h c => h.disconnect c.src c.srcOutlet c.dst c.dstInlet) g)
      (fun c => c ∈ L) := by
  induction L generalizing g with
  | nil => simpa using Graph.Removes.nothing g
  | cons a L ih =>
    rw [List.foldl_cons]
    have h1 := g.removes_disconnect a.src a.srcOutlet a.dst a.dstInlet
    have h2 := ih (g.disconnect a.src a.srcOutlet a.dst a.dstInlet)
    refine ⟨(h1.andThen h2).1, fun c => ?_, fun c => ?_⟩
    · rw [(h1.andThen h2).2.1]; simp only [List.mem_cons]
    · rw [(h1.andThen h2).2.2]; simp only [List.mem_cons]

theorem Graph.removes_disconnectInlet {g : Graph} (hg : g.WF) (p : DFNodeID) (i : Nat) :
    g.Removes (g.disconnectInlet p i) (fun c => c.dst = p ∧ c.dstInlet = i) := by
  have h := Graph.removes_foldl_disconnect
    ((g.inSet p i).map (fun o => (⟨o.node, o.index, p, i⟩ : DFConnection))) g
  rw [List.foldl_map] at h
  refine Graph.Removes.congr h (fun c hc => ?_)
  have hi : g.inRec c := hc.elim (hg.symm c).1 id
  simp only [List.mem_map]
  constructor
  · rintro ⟨o, _, rfl⟩; exact ⟨rfl, rfl⟩
  · rintro ⟨rfl, rfl⟩
    exact ⟨⟨c.src, c.srcOutlet⟩, hi, rfl⟩

theorem Graph.removes_disconnectOutlet {g : Graph} (hg : g.WF) (p : DFNodeID) (k : Nat) :
    g.Removes (g.disconnectOutlet p k) (fun c => c.src = p ∧ c.srcOutlet = k) := by
  have h := Graph.removes_foldl_disconnect
    ((g.outSet p k).map (fun q => (⟨p, k, q.node, q.index⟩ : DFConnection))) g
  rw [List.foldl_map] at h
  refine Graph.Removes.congr h (fun c hc => ?_)
  have ho : g.outRec c := hc.elim id (hg.symm c).2
  simp only [List.mem_map]
  constructor
  · rintro ⟨o, _, rfl⟩; exact ⟨rfl, rfl⟩
  · rintro ⟨rfl, rfl⟩
    exact ⟨⟨c.dst, c.dstInlet⟩, ho, rfl⟩

theorem Graph.removes_foldl_slots (op : Graph → Nat → Graph) (R : Nat → DFConnection → Prop)
    (hop : ∀ g : Graph, g.WF → ∀ i, g.Removes (op g i) (R i))
    (L : List Nat) (g : Graph) (hg : g.WF) :
    g.Removes (L.foldl op g) (fun c => ∃ i ∈ L, R i c) := by
  induction L generalizing g with
  | nil => simpa using Graph.Removes.nothing g
  | cons a L ih =>
    rw [List.foldl_cons]
    have h1 := hop g hg a
    have h2 := ih (op g a) (h1.wf hg)
    refine ⟨(h1.andThen h2).1, fun c => ?_, fun c => ?_⟩
    · rw [(h1.andThen h2).2.1]; simp
    · rw [(h1.andThen h2).2.2]; simp

/-! ## Tearing down all connections of a node; destruction -/

theorem Graph.removes_disconnectAll {g : Graph} (hg : g.WF) (p : DFNodeID) :
    g.Removes (g.disconnectAll p) (fun c => c.dst = p ∨ c.src = p) := by
  unfold Graph.disconnectAll
  have h1 := Graph.removes_foldl_slots (fun h i => h.disconnectInlet p i)
    (fun i c => c.dst = p ∧ c.dstInlet = i)
    (fun h hh i => Graph.removes_disconnectInlet hh p i) (List.range (g.inletCount p)) g hg
  have hg1 := h1.wf hg
  have h2 := Graph.removes_foldl_slots (fun h k => h.disconnectOutlet p k)
    (fun k c => c.src = p ∧ c.srcOutlet = k)
    (fun h hh k => Graph.removes_disconnectOutlet hh p k)
    (List.range (Graph.outletCount
      ((List.range (g.inletCount p)).foldl (fun h i => h.disconnectInlet p i) g) p)) _ hg1
  refine Graph.Removes.congr (h1.andThen h2) (fun c hc => ?_)
  have hv := hg.indexValid c hc
  rw [h1.1.outletCount]
  simp only [List.mem_range]
  constructor
  · rintro (⟨i, _, h, _⟩ | ⟨k, _, h, _⟩)
    · exact Or.inl h
    · exact Or.inr h
  · rintro (h | h)
    · exact Or.inl ⟨c.dstInlet, by rw [← h]; exact hv.2, h, rfl⟩
    · exact Or.inr ⟨c.srcOutlet, by rw [← h]; exact hv.1, h, rfl⟩

theorem Graph.find_filter_ne (l : List DFNode) (p q : DFNodeID) :
    (l.filter (fun n => n.id != p)).find? (fun n => n.id == q) =
      if q = p then none else l.find? (fun n => n.id == q) := by
  induction l with
  | nil => simp
  | cons a l ih =>
    by_cases ha : a.id = p
    · have h1 : (a.id != p) = false := by simp [ha]
      rw [List.filter_cons]
      simp only [h1, Bool.false_eq_true, if_false]
      rw [ih]
      by_cases hq : q = p
      · simp [hq]
      · have h2 : (a.id == q) = false := by
          simp only [beq_eq_false_iff_ne, ne_eq]; rw [ha]; exact fun e => hq e.symm
        simp [hq, List.find?_cons, h2]
    · have h1 : (a.id != p) = true := by simp [ha]
      rw [List.filter_cons]
      simp only [h1, if_true]
      rw [List.find?_cons, List.find?_cons, ih]
      by_cases hq : a.id = q
      · have : ¬ q = p := by rw [← hq]; exact ha
        simp [hq, this]
      · have h2 : (a.id == q) = false := by simpa using hq
        simp only [h2]

theorem Graph.find_destroy (g : Graph) (p q : DFNodeID) :
    (g.destroy p).find q = if q = p then none else (g.disconnectAll p).find q := by
  unfold Graph.destroy Graph.find
  exact Graph.find_filter_ne _ p q

theorem Graph.nextNodeId_destroy {g : Graph} (hg : g.WF) (p : DFNodeID) :
    (g.destroy p).nextNodeId = g.nextNodeId :=
  (Graph.removes_disconnectAll hg p).1.1

theorem Graph.shapeOf_destroy {g : Graph} (hg : g.WF) (p q : DFNodeID) :
    (g.destroy p).shapeOf q = if q = p then none else g.shapeOf q := by
  have h := (Graph.removes_disconnectAll hg p).1.2 q
  unfold Graph.shapeOf at *
  rw [Graph.find_destroy]
  by_cases hq : q = p
  · simp [hq]
  · simp only [if_neg hq]; exact h

theorem Graph.live_destroy {g : Graph} (hg : g.WF) (p q : DFNodeID) :
    (g.destroy p).live q ↔ g.live q ∧ q ≠ p := by
  rw [Graph.live_iff_shapeOf, Graph.live_iff_shapeOf, Graph.shapeOf_destroy hg]
  by_cases hq : q = p <;> simp [hq]

theorem Graph.inletCount_destroy {g : Graph} (hg : g.WF) (p q : DFNodeID) (hq : q ≠ p) :
    (g.destroy p).inletCount q = g.inletCount q := by
  rw [Graph.inletCount_eq_shapeOf, Graph.inletCount_eq_shapeOf, Graph.shapeOf_destroy hg,
    if_neg hq]

theorem Graph.outletCount_destroy {g : Graph} (hg : g.WF) (p q : DFNodeID) (hq : q ≠ p) :
    (g.destroy p).outletCount q = g.outletCount q := by
  rw [Graph.outletCount_eq_shapeOf, Graph.outletCount_eq_shapeOf, Graph.shapeOf_destroy hg,
    if_neg hq]

theorem Graph.outRec_destroy {g : Graph} (hg : g.WF) (p : DFNodeID) (c : DFConnection) :
    (g.destroy p).outRec c ↔ g.outRec c ∧ c.src ≠ p ∧ c.dst ≠ p := by
  have h := (Graph.removes_disconnectAll hg p).2.1 c
  unfold Graph.outRec at *
  by_cases hs : c.src = p
  · have : (g.destroy p).outSet c.src c.srcOutlet = [] := by
      unfold Graph.outSet; rw [Graph.find_destroy, if_pos hs]
    rw [this]; simp [hs]
  · have : (g.destroy p).outSet c.src c.srcOutlet = (g.disconnectAll p).outSet c.src c.srcOutlet := by
      unfold Graph.outSet; rw [Graph.find_destroy, if_neg hs]
    rw [this, h]; tauto

theorem Graph.inRec_destroy {g : Graph} (hg : g.WF) (p : DFNodeID) (c : DFConnection) :
    (g.destroy p).inRec c ↔ g.inRec c ∧ c.src ≠ p ∧ c.dst ≠ p := by
  have h := (Graph.removes_disconnectAll hg p).2.2 c
  unfold Graph.inRec at *
  by_cases hs : c.dst = p
  · have : (g.destroy p).inSet c.dst c.dstInlet = [] := by
      unfold Graph.inSet; rw [Graph.find_destroy, if_pos hs]
    rw [this]; simp [hs]
  · have : (g.destroy p).inSet c.dst c.dstInlet = (g.disconnectAll p).inSet c.dst c.dstInlet := by
      unfold Graph.inSet; rw [Graph.find_destroy, if_neg hs]
    rw [this, h]; tauto

theorem Graph.wf_destroy {g : Graph} (hg : g.WF) (p : DFNodeID) : (g.destroy p).WF where
  fresh := fun q hq => by
    rw [Graph.nextNodeId_destroy hg]
    exact hg.fresh q ((Graph.live_destroy hg p q).1 hq).1
  inLen := fun q n hn => by
    rw [Graph.find_destroy] at hn
    by_cases hq : q = p
    · rw [if_pos hq] at hn; cases hn
    · rw [if_neg hq] at hn
      exact ((Graph.removes_disconnectAll hg p).wf hg).inLen q n hn
  outLen := fun q n hn => by
    rw [Graph.find_destroy] at hn
    by_cases hq : q = p
    · rw [if_pos hq] at hn; cases hn
    · rw [if_neg hq] at hn
      exact ((Graph.removes_disconnectAll hg p).wf hg).outLen q n hn
  symm := fun c => by
    rw [Graph.outRec_destroy hg, Graph.inRec_destroy hg, hg.symm]

/-! ## Resizing the slot tables of a node -/

theorem Graph.removes_severInlets {g : Graph} (hg : g.WF) (p : DFNodeID) (n : Nat) :
    g.Removes (g.severInlets p n) (fun c => c.dst = p ∧ n ≤ c.dstInlet) := by
  unfold Graph.severInlets
  have h1 := Graph.removes_foldl_slots (fun h i => h.disconnectInlet p i)
    (fun i c => c.dst = p ∧ c.dstInlet = i)
    (fun h hh i => Graph.removes_disconnectInlet hh p i)
    (List.range' n (g.inletCount p - n)) g hg
  refine Graph.Removes.congr h1 (fun c hc => ?_)
  have hv := hg.indexValid c hc
  simp only [List.mem_range'_1]
  constructor
  · rintro ⟨i, hi, h, rfl⟩; exact ⟨h, hi.1⟩
  · rintro ⟨h, hn⟩
    refine ⟨c.dstInlet, ⟨hn, ?_⟩, h, rfl⟩
    rw [h] at hv; omega

theorem Graph.removes_severOutlets {g : Graph} (hg : g.WF) (p : DFNodeID) (n : Nat) :
    g.Removes (g.severOutlets p n) (fun c => c.src = p ∧ n ≤ c.srcOutlet) := by
  unfold Graph.severOutlets
  have h1 := Graph.removes_foldl_slots (fun h k => h.disconnectOutlet p k)
    (fun k c => c.src = p ∧ c.srcOutlet = k)
    (fun h hh k => Graph.removes_disconnectOutlet hh p k)
    (List.range' n (g.outletCount p - n)) g hg
  refine Graph.Removes.congr h1 (fun c hc => ?_)
  have hv := hg.indexValid c hc
  simp only [List.mem_range'_1]
  constructor
  · rintro ⟨i, hi, h, rfl⟩; exact ⟨h, hi.1⟩
  · rintro ⟨h, hn⟩
    refine ⟨c.srcOutlet, ⟨hn, ?_⟩, h, rfl⟩
    rw [h] at hv; omega

theorem Graph.find_resizeInlets (g : Graph) (p q : DFNodeID) (n : Nat) :
    (g.resizeInlets p n).find q =
      if q = p then (g.find q).map (DFNode.resizeInlets n) else g.find q :=
  Graph.find_update g p q _ (fun _ => rfl)

theorem Graph.find_resizeOutlets (g : Graph) (p q : DFNodeID) (n : Nat) :
    (g.resizeOutlets p n).find q =
      if q = p then (g.find q).map (DFNode.resizeOutlets n) else g.find q :=
  Graph.find_update g p q _ (fun _ => rfl)

theorem Graph.inRec_resizeInlets (g : Graph) (p : DFNodeID) (n : Nat) (c : DFConnection) :
    (g.resizeInlets p n).inRec c ↔ g.inRec c ∧ (c.dst = p → c.dstInlet < n) := by
  unfold Graph.inRec Graph.inSet
  rw [Graph.find_resizeInlets]
  by_cases hq : c.dst = p
  · rw [if_pos hq]
    cases g.find c.dst with
    | none => simp
    | some m =>
      simp only [Option.map_some', DFNode.resizeInlets, slotSet_resize]
      by_cases hn : c.dstInlet < n <;> simp [hn, hq]
  · rw [if_neg hq]; simp [hq]

theorem Graph.outRec_resizeInlets (g : Graph) (p : DFNodeID) (n : Nat) (c : DFConnection) :
    (g.resizeInlets p n).outRec c ↔ g.outRec c := by
  unfold Graph.outRec Graph.outSet
  rw [Graph.find_resizeInlets]
  by_cases hq : c.src = p
  · rw [if_pos hq]
    cases g.find c.src <;> simp [DFNode.resizeInlets]
  · rw [if_neg hq]

theorem Graph.outRec_resizeOutlets (g : Graph) (p : DFNodeID) (n : Nat) (c : DFConnection) :
    (g.resizeOutlets p n).outRec c ↔ g.outRec c ∧ (c.src = p → c.srcOutlet < n) := by
  unfold Graph.outRec Graph.outSet
  rw [Graph.find_resizeOutlets]
  by_cases hq : c.src = p
  · rw [if_pos hq]
    cases g.find c.src with
    | none => simp
    | some m =>
      simp only [Option.map_some', DFNode.resizeOutlets, slotSet_resize]
      by_cases hn : c.srcOutlet < n <;> simp [hn, hq]
  · rw [if_neg hq]; simp [hq]

theorem Graph.inRec_resizeOutlets (g : Graph) (p : DFNodeID) (n : Nat) (c : DFConnection) :
    (g.resizeOutlets p n).inRec c ↔ g.inRec c := by
  unfold Graph.inRec Graph.inSet
  rw [Graph.find_resizeOutlets]
  by_cases hq : c.dst = p
  · rw [if_pos hq]
    cases g.find c.dst <;> simp [DFNode.resizeOutlets]
  · rw [if_neg hq]

theorem Graph.live_of_find {g : Graph} {p : DFNodeID} {n : DFNode} (h : g.find p = some n) :
    g.live p := by
  simp [Graph.live, h]

theorem Graph.live_iff_find (g : Graph) (p : DFNodeID) : g.live p ↔ ∃ n, g.find p = some n := by
  unfold Graph.live
  cases g.find p <;> simp

theorem Graph.wf_resizeInlets {g : Graph} (hg : g.WF) (p : DFNodeID) (n : Nat)
    (hsev : ∀ c, g.inRec c → c.dst = p → c.dstInlet < n) : (g.resizeInlets p n).WF where
  fresh := fun q hq => by
    have : g.live q := by
      rw [Graph.live_iff_find] at hq ⊢
      obtain ⟨m, hm⟩ := hq
      rw [Graph.find_resizeInlets] at hm
      by_cases h : q = p
      · rw [if_pos h] at hm
        cases hf : g.find q with
        | none => rw [hf] at hm; cases hm
        | some m' => exact ⟨m', rfl⟩
      · rw [if_neg h] at hm; exact ⟨m, hm⟩
    exact hg.fresh q this
  inLen := fun q m hm => by
    rw [Graph.find_resizeInlets] at hm
    by_cases h : q = p
    · rw [if_pos h] at hm
      cases hf : g.find q with
      | none => rw [hf] at hm; cases hm
      | some m' =>
        rw [hf] at hm
        simp only [Option.map_some', Option.some.injEq] at hm
        subst hm
        simp [DFNode.resizeInlets, length_resize, length_setNumIOlets]
    · rw [if_neg h] at hm; exact hg.inLen q m hm
  outLen := fun q m hm => by
    rw [Graph.find_resizeInlets] at hm
    by_cases h : q = p
    · rw [if_pos h] at hm
      cases hf : g.find q with
      | none => rw [hf] at hm; cases hm
      | some m' =>
        rw [hf] at hm
        simp only [Option.map_some', Option.some.injEq] at hm
        subst hm
        exact hg.outLen q m' hf
    · rw [if_neg h] at hm; exact hg.outLen q m hm
  symm := fun c => by
    rw [Graph.outRec_resizeInlets, Graph.inRec_resizeInlets, hg.symm]
    exact ⟨fun h => ⟨h, hsev c h⟩, fun h => h.1⟩

theorem Graph.wf_resizeOutlets {g : Graph} (hg : g.WF) (p : DFNodeID) (n : Nat)
    (hsev : ∀ c, g.outRec c → c.src = p → c.srcOutlet < n) : (g.resizeOutlets p n).WF where
  fresh := fun q hq => by
    have : g.live q := by
      rw [Graph.live_iff_find] at hq ⊢
      obtain ⟨m, hm⟩ := hq
      rw [Graph.find_resizeOutlets] at hm
      by_cases h : q = p
      · rw [if_pos h] at hm
        cases hf : g.find q with
        | none => rw [hf] at hm; cases hm
        | some m' => exact ⟨m', rfl⟩
      · rw [if_neg h] at hm; exact ⟨m, hm⟩
    exact hg.fresh q this
  outLen := fun q m hm => by
    rw [Graph.find_resizeOutlets] at hm
    by_cases h : q = p
    · rw [if_pos h] at hm
      cases hf : g.find q with
      | none => rw [hf] at hm; cases hm
      | some m' =>
        rw [hf] at hm
        simp only [Option.map_some', Option.some.injEq] at hm
        subst hm
        simp [DFNode.resizeOutlets, length_resize, length_setNumIOlets]
    · rw [if_neg h] at hm; exact hg.outLen q m hm
  inLen := fun q m hm => by
    rw [Graph.find_resizeOutlets] at hm
    by_cases h : q = p
    · rw [if_pos h] at hm
      cases hf : g.find q with
      | none => rw [hf] at hm; cases hm
      | some m' =>
        rw [hf] at hm
        simp only [Option.map_some', Option.some.injEq] at hm
        subst hm
        exact hg.inLen q m' hf
    · rw [if_neg h] at hm; exact hg.inLen q m hm
  symm := fun c => by
    rw [Graph.outRec_resizeOutlets, Graph.inRec_resizeOutlets, ← hg.symm]
    exact ⟨fun h => h.1, fun h => ⟨h, hsev c h⟩⟩

theorem Graph.inletCount_resizeInlets_self (g : Graph) (p : DFNodeID) (n : Nat)
    (hp : g.live p) : (g.resizeInlets p n).inletCount p = n := by
  obtain ⟨m, hm⟩ := (Graph.live_iff_find g p).1 hp
  unfold Graph.inletCount
  rw [Graph.find_resizeInlets, if_pos rfl, hm]
  simp [DFNode.resizeInlets, length_setNumIOlets]

theorem Graph.outletCount_resizeOutlets_self (g : Graph) (p : DFNodeID) (n : Nat)
    (hp : g.live p) : (g.resizeOutlets p n).outletCount p = n := by
  obtain ⟨m, hm⟩ := (Graph.live_iff_find g p).1 hp
  unfold Graph.outletCount
  rw [Graph.find_resizeOutlets, if_pos rfl, hm]
  simp [DFNode.resizeOutlets, length_setNumIOlets]

/-! ## Connecting -/

theorem Graph.connect_eq {g : Graph} {s d : DFNodeID} {ns nd : DFNode} (o i : Nat)
    (hs : g.find s = some ns) (hd : g.find d = some nd)
    (ho : o < ns.outlets.length) (hi : i < nd.inlets.length) :
    g.connect s o d i = Except.ok (if g.isConnected s o d i then g else
      (g.update s (DFNode.addOutbound o ⟨d, i⟩)).update d (DFNode.addInbound i ⟨s, o⟩)) := by
  unfold Graph.connect
  rw [hs, hd]
  simp only [DFNode.validateOutlet, DFNode.validateInlet, validateIOlet, ge_iff_le]
  rw [if_neg (by omega), if_neg (by omega)]
  simp only
  split <;> rfl

theorem Graph.connect_ok_iff (g : Graph) (s : DFNodeID) (o : Nat) (d : DFNodeID) (i : Nat) :
    (∃ g', g.connect s o d i = Except.ok g') ↔
      g.live s ∧ g.live d ∧ o < g.outletCount s ∧ i < g.inletCount d := by
  unfold Graph.live Graph.outletCount Graph.inletCount
  cases hs : g.find s with
  | none => simp [Graph.connect, hs]
  | some ns =>
    cases hd : g.find d with
    | none => simp [Graph.connect, hs, hd]
    | some nd =>
      by_cases ho : o < ns.outlets.length
      · by_cases hi : i < nd.inlets.length
        · rw [Graph.connect_eq o i hs hd ho hi]
          simp [ho, hi]
        · simp [Graph.connect, hs, hd, DFNode.validateOutlet, DFNode.validateInlet,
            validateIOlet, ho, hi, Nat.le_of_not_lt hi]
          intro x
          rw [if_neg (by omega)]
          simp
      · simp [Graph.connect, hs, hd, DFNode.validateOutlet, DFNode.validateInlet,
            validateIOlet, ho, Nat.le_of_not_lt ho]

theorem Graph.mem_outSet_wire (g : Graph) (s : DFNodeID) (o : Nat) (d : DFNodeID)
    (i : Nat) (q : DFNodeID) (k : Nat) (y : DFNodeIOlet) :
    y ∈ ((g.update s (DFNode.addOutbound o ⟨d, i⟩)).update d
        (DFNode.addInbound i ⟨s, o⟩)).outSet q k ↔
      y ∈ g.outSet q k ∨ (q = s ∧ k = o ∧ y = ⟨d, i⟩ ∧
        ∃ n, g.find s = some n ∧ o < n.outboundConnections.length) := by
  unfold Graph.outSet
  rw [Graph.find_update _ d q (DFNode.addInbound i ⟨s, o⟩) (fun _ => rfl),
    Graph.find_update _ s q (DFNode.addOutbound o ⟨d, i⟩) (fun _ => rfl)]
  by_cases hs : q = s
  · subst hs
    cases hf : g.find q with
    | none => simp
    | some n =>
      by_cases hd : q = d <;>
        simp [hd, DFNode.addInbound, DFNode.addOutbound, mem_slotSet_insertAt] <;> tauto
  · cases hf : g.find q with
    | none => simp [hs]
    | some n =>
      by_cases hd : q = d <;> (try subst hd) <;>
        simp [*, DFNode.addInbound, DFNode.addOutbound, mem_slotSet_insertAt]

theorem Graph.mem_inSet_wire (g : Graph) (s : DFNodeID) (o : Nat) (d : DFNodeID)
    (i : Nat) (q : DFNodeID) (j : Nat) (y : DFNodeIOlet) :
    y ∈ ((g.update s (DFNode.addOutbound o ⟨d, i⟩)).update d
        (DFNode.addInbound i ⟨s, o⟩)).inSet q j ↔
      y ∈ g.inSet q j ∨ (q = d ∧ j = i ∧ y = ⟨s, o⟩ ∧
        ∃ n, g.find d = some n ∧ i < n.inboundConnections.length) := by
  unfold Graph.inSet
  rw [Graph.find_update _ d q (DFNode.addInbound i ⟨s, o⟩) (fun _ => rfl),
    Graph.find_update _ s q (DFNode.addOutbound o ⟨d, i⟩) (fun _ => rfl)]
  by_cases hd : q = d
  · subst hd
    cases hf : g.find q with
    | none => simp
    | some n =>
      by_cases hs : q = s <;>
        simp [hs, DFNode.addInbound, DFNode.addOutbound, mem_slotSet_insertAt] <;> tauto
  · cases hf : g.find q with
    | none => simp [hd]
    | some n =>
      by_cases hs : q = s <;> (try subst hs) <;>
        simp [*, DFNode.addInbound, DFNode.addOutbound, mem_slotSet_insertAt]

theorem Graph.frame_wire (g : Graph) (s : DFNodeID) (o : Nat) (d : DFNodeID) (i : Nat) :
    g.Frame ((g.update s (DFNode.addOutbound o ⟨d, i⟩)).update d
      (DFNode.addInbound i ⟨s, o⟩)) := by
  refine ⟨rfl, fun q => ?_⟩
  unfold Graph.shapeOf
  rw [Graph.find_update _ d q (DFNode.addInbound i ⟨s, o⟩) (fun _ => rfl),
    Graph.find_update _ s q (DFNode.addOutbound o ⟨d, i⟩) (fun _ => rfl)]
  cases g.find q with
  | none => simp
  | some n =>
    by_cases hd : q = d <;> by_cases hs : q = s <;> (try subst hd) <;> (try subst hs) <;>
      simp [*, DFNode.addInbound, DFNode.addOutbound, DFNode.shape, length_insertAt]

/-- What a successful `connect` does to a well-formed graph. -/
theorem Graph.connect_spec {g g' : Graph} (hg : g.WF) {s d : DFNodeID} {o i : Nat}
    (h : g.connect s o d i = Except.ok g') :
    g.Frame g' ∧ (∀ c, g'.outRec c ↔ g.outRec c ∨ c = ⟨s, o, d, i⟩) ∧
      (∀ c, g'.inRec c ↔ g.inRec c ∨ c = ⟨s, o, d, i⟩) := by
  obtain ⟨hls, hld, ho, hi⟩ := (Graph.connect_ok_iff g s o d i).1 ⟨g', h⟩
  obtain ⟨ns, hs⟩ := (Graph.live_iff_find g s).1 hls
  obtain ⟨nd, hd⟩ := (Graph.live_iff_find g d).1 hld
  have ho' : o < ns.outlets.length := by simpa [Graph.outletCount, hs] using ho
  have hi' : i < nd.inlets.length := by simpa [Graph.inletCount, hd] using hi
  rw [Graph.connect_eq o i hs hd ho' hi'] at h
  by_cases hc : g.isConnected s o d i = true
  · rw [if_pos hc] at h
    cases h
    have hout : g.outRec ⟨s, o, d, i⟩ := by simpa [Graph.isConnected] using hc
    have hin : g.inRec ⟨s, o, d, i⟩ := (hg.symm _).1 hout
    refine ⟨Graph.Frame.refl g, fun c => ⟨Or.inl, ?_⟩, fun c => ⟨Or.inl, ?_⟩⟩
    · rintro (h | rfl)
      · exact h
      · exact hout
    · rintro (h | rfl)
      · exact h
      · exact hin
  · rw [if_neg hc] at h
    cases h
    refine ⟨g.frame_wire s o d i, fun c => ?_, fun c => ?_⟩
    · unfold Graph.outRec
      rw [Graph.mem_outSet_wire]
      simp only [DFConnection.eq_iff, DFNodeIOlet.mk.injEq]
      have : ∃ n, g.find s = some n ∧ o < n.outboundConnections.length :=
        ⟨ns, hs, by rw [hg.outLen s ns hs]; exact ho'⟩
      tauto
    · unfold Graph.inRec
      rw [Graph.mem_inSet_wire]
      simp only [DFConnection.eq_iff, DFNodeIOlet.mk.injEq]
      have : ∃ n, g.find d = some n ∧ i < n.inboundConnections.length :=
        ⟨nd, hd, by rw [hg.inLen d nd hd]; exact hi'⟩
      tauto

theorem Graph.wf_of_frame {g g' : Graph} (hg : g.WF) (hf : g.Frame g')
    (hs : ∀ c, g'.outRec c ↔ g'.inRec c) : g'.WF where
  fresh := fun p hp => by
    rw [hf.1]; exact hg.fresh p ((hf.live p).1 hp)
  inLen := fun p n hn => by
    obtain ⟨m, hm, hs⟩ := Graph.shapeOf_find (hf.2 p) hn
    have := hg.inLen p m hm
    simp only [DFNode.shape, Prod.mk.injEq] at hs
    rw [← hs.1, ← hs.2.2.1]; exact this
  outLen := fun p n hn => by
    obtain ⟨m, hm, hs⟩ := Graph.shapeOf_find (hf.2 p) hn
    have := hg.outLen p m hm
    simp only [DFNode.shape, Prod.mk.injEq] at hs
    rw [← hs.2.1, ← hs.2.2.2]; exact this
  symm := hs

theorem Graph.wf_connect {g g' : Graph} (hg : g.WF) {s d : DFNodeID} {o i : Nat}
    (h : g.connect s o d i = Except.ok g') : g'.WF := by
  obtain ⟨hf, ho, hi⟩ := Graph.connect_spec hg h
  exact Graph.wf_of_frame hg hf (fun c => by rw [ho, hi, hg.symm])

theorem Graph.find_eq_none_of_not_live {g : Graph} {p : DFNodeID} (h : ¬ g.live p) :
    g.find p = none := by
  unfold Graph.live at h
  cases hf : g.find p with
  | none => rfl
  | some n => rw [hf] at h; simp at h

theorem Graph.not_live_next {g : Graph} (hg : g.WF) : ¬ g.live g.nextNodeId :=
  fun h => Nat.lt_irrefl _ (hg.fresh _ h)

theorem Graph.find_register {g : Graph} (hg : g.WF) (kind : NodeKind) (cmd : String)
    (x y : Int) (q : DFNodeID) :
    (g.register kind cmd x y).1.find q =
      if q = g.nextNodeId then some (DFNode.build g.nextNodeId kind cmd x y) else g.find q := by
  unfold Graph.register Graph.find
  simp only [List.find?_append, List.find?_cons, List.find?_nil]
  by_cases hq : q = g.nextNodeId
  · subst hq
    have := Graph.find_eq_none_of_not_live (Graph.not_live_next hg)
    unfold Graph.find at this
    rw [this]
    simp [DFNode.build]
  · rw [if_neg hq]
    have hb : ((DFNode.build g.nextNodeId kind cmd x y).id == q) = false := by
      simp only [DFNode.build, beq_eq_false_iff_ne, ne_eq]
      exact fun e => hq e.symm
    simp only [hb]
    cases List.find? (fun n => n.id == q) g.byId <;> rfl

theorem Graph.live_register {g : Graph} (hg : g.WF) (kind : NodeKind) (cmd : String)
    (x y : Int) (q : DFNodeID) :
    (g.register kind cmd x y).1.live q ↔ q = g.nextNodeId ∨ g.live q := by
  unfold Graph.live
  rw [Graph.find_register hg]
  by_cases hq : q = g.nextNodeId
  · simp [hq]
  · simp [hq]

theorem slotSet_resize_nil (n j : Nat) : slotSet (resize [] n []) j = [] := by
  rw [slotSet_resize]
  split
  · exact slotSet_of_le [] j (Nat.zero_le _)
  · rfl

theorem Graph.outRec_register {g : Graph} (hg : g.WF) (kind : NodeKind) (cmd : String)
    (x y : Int) (c : DFConnection) :
    (g.register kind cmd x y).1.outRec c ↔ g.outRec c := by
  unfold Graph.outRec Graph.outSet
  rw [Graph.find_register hg]
  by_cases hq : c.src = g.nextNodeId
  · rw [if_pos hq, hq, Graph.find_eq_none_of_not_live (Graph.not_live_next hg)]
    simp [DFNode.build, slotSet_resize_nil]
  · rw [if_neg hq]

theorem Graph.inRec_register {g : Graph} (hg : g.WF) (kind : NodeKind) (cmd : String)
    (x y : Int) (c : DFConnection) :
    (g.register kind cmd x y).1.inRec c ↔ g.inRec c := by
  unfold Graph.inRec Graph.inSet
  rw [Graph.find_register hg]
  by_cases hq : c.dst = g.nextNodeId
  · rw [if_pos hq, hq, Graph.find_eq_none_of_not_live (Graph.not_live_next hg)]
    simp [DFNode.build, slotSet_resize_nil]
  · rw [if_neg hq]

theorem Graph.wf_register {g : Graph} (hg : g.WF) (kind : NodeKind) (cmd : String)
    (x y : Int) : (g.register kind cmd x y).1.WF where
  fresh := fun q hq => by
    rcases (Graph.live_register hg kind cmd x y q).1 hq with h | h
    · rw [h]; exact Nat.lt_succ_self _
    · exact Nat.lt_succ_of_lt (hg.fresh q h)
  inLen := fun q n hn => by
    rw [Graph.find_register hg] at hn
    by_cases hq : q = g.nextNodeId
    · rw [if_pos hq] at hn
      cases hn
      simp [DFNode.build, length_resize, length_setNumIOlets]
    · rw [if_neg hq] at hn; exact hg.inLen q n hn
  outLen := fun q n hn => by
    rw [Graph.find_register hg] at hn
    by_cases hq : q = g.nextNodeId
    · rw [if_pos hq] at hn
      cases hn
      simp [DFNode.build, length_resize, length_setNumIOlets]
    · rw [if_neg hq] at hn; exact hg.outLen q n hn
  symm := fun c => by
    rw [Graph.outRec_register hg, Graph.inRec_register hg, hg.symm]

theorem Graph.wf_empty : Graph.empty.WF where
  fresh := fun p hp => by simp [Graph.live, Graph.find, Graph.empty] at hp
  inLen := fun p n hn => by simp [Graph.find, Graph.empty] at hn
  outLen := fun p n hn => by simp [Graph.find, Graph.empty] at hn
  symm := fun c => by simp [Graph.outRec, Graph.inRec, Graph.outSet, Graph.inSet, Graph.find,
    Graph.empty]

theorem Graph.inletCount_register {g : Graph} (hg : g.WF) (kind : NodeKind) (cmd : String)
    (x y : Int) (q : DFNodeID) :
    (g.register kind cmd x y).1.inletCount q =
      if q = g.nextNodeId then kind.inlets else g.inletCount q := by
  unfold Graph.inletCount
  rw [Graph.find_register hg]
  by_cases hq : q = g.nextNodeId
  · simp [hq, DFNode.build, length_setNumIOlets]
  · simp [hq]

theorem Graph.outletCount_register {g : Graph} (hg : g.WF) (kind : NodeKind) (cmd : String)
    (x y : Int) (q : DFNodeID) :
    (g.register kind cmd x y).1.outletCount q =
      if q = g.nextNodeId then kind.outlets else g.outletCount q := by
  unfold Graph.outletCount
  rw [Graph.find_register hg]
  by_cases hq : q = g.nextNodeId
  · simp [hq, DFNode.build, length_setNumIOlets]
  · simp [hq]

/-! ## The log and the editor -/

@[simp]
theorem World.log_graph (w : World) (c : Call) : (w.log c).graph = w.graph := rfl
@[simp]
theorem World.log_editor (w : World) (c : Call) : (w.log c).editor = w.editor := rfl
@[simp]
theorem World.log_trace (w : World) (c : Call) : (w.log c).trace = w.trace ++ [c] := rfl

theorem World.log_faults (w : World) (c : Call) (h : w.faulty c = false) :
    (w.log c).faults = w.faults := by
  simp [World.log, h]

theorem World.log_eq (w : World) (c : Call) (h : w.faulty c = false) :
    w.log c = { w with trace := w.trace ++ [c] } := by
  simp [World.log, h]

theorem emitGraphChanged_eq (w : World) :
    emitGraphChanged w =
      { w with trace := w.trace ++ [Call.graphChanged, Call.saveGraph "" w.graph.snapshot] } := by
  simp [emitGraphChanged, onGraphChanged, World.log, World.faulty]

theorem Graph.isNone_find_of_live {g : Graph} {p : DFNodeID} (h : g.live p) :
    (g.find p).isNone = false := by
  unfold Graph.live at h
  cases hf : g.find p with
  | none => rw [hf] at h; simp at h
  | some n => rfl

theorem getElem?_set_property (l : List QDataflowModelNode) (e e' : Nat)
    (nd : QDataflowModelNode) (v : Option DFNodeID) (he : l[e]? = some nd) :
    (l.set e { nd with property := v })[e']? =
      if e' = e then some { nd with property := v } else l[e']? := by
  rw [List.getElem?_set]
  by_cases h : e = e'
  · subst h
    have : e < l.length := by
      by_contra hlt
      rw [List.getElem?_eq_none (Nat.le_of_not_lt hlt)] at he
      cases he
    simp [this]
  · have h' : ¬ e' = e := fun x => h x.symm
    simp [h, h']

/-! ## The restore loop -/

theorem stillValid_congr {g g' : Graph} (hf : g.Frame g') (old : Option DFNodeID)
    (new : DFNodeID) (c : DFConnection) : stillValid g' old new c ↔ stillValid g old new c := by
  unfold stillValid
  rw [hf.outletCount, hf.inletCount]

theorem restoreConnections_spec (old : Option DFNodeID) (new : DFNodeID)
    (cs : List DFConnection) (w : World) (hwf : w.graph.WF)
    (hlive : ∀ c ∈ cs, w.graph.live (retarget old new c.src) ∧
      w.graph.live (retarget old new c.dst)) :
    ∃ g', restoreConnections old new cs w =
        ⟨{ w with graph := g',
                  trace := w.trace ++
                    (cs.filter (fun c => decide (stillValid w.graph old new c))).map
                      (connectCall old new) }, none⟩ ∧
      g'.WF ∧ w.graph.Frame g' ∧
      (∀ c, g'.outRec c ↔ w.graph.outRec c ∨
        c ∈ (cs.filter (fun c => decide (stillValid w.graph old new c))).map
          (DFConnection.retargeted old new)) := by
  induction cs generalizing w with
  | nil =>
    refine ⟨w.graph, ?_, hwf, Graph.Frame.refl _, fun c => by simp⟩
    simp [restoreConnections]
  | cons c cs ih =>
    have hc := hlive c (List.mem_cons_self _ _)
    have hcs : ∀ c' ∈ cs, w.graph.live (retarget old new c'.src) ∧
        w.graph.live (retarget old new c'.dst) :=
      fun c' h' => hlive c' (List.mem_cons_of_mem _ h')
    by_cases hv : stillValid w.graph old new c
    · have hv' := hv
      unfold stillValid at hv'
      obtain ⟨g1, hg1⟩ := (Graph.connect_ok_iff w.graph _ c.srcOutlet _ c.dstInlet).2
        ⟨hc.1, hc.2, hv'.1, hv'.2⟩
      obtain ⟨hfr, hout, _⟩ := Graph.connect_spec hwf hg1
      have hwf1 := Graph.wf_connect hwf hg1
      have hnf : w.faulty (Call.connect (retarget old new c.src) c.srcOutlet
          (retarget old new c.dst) c.dstInlet) = false := by
        simp [World.faulty, Graph.isNone_find_of_live hc.1, Graph.isNone_find_of_live hc.2]
      obtain ⟨g', hr, hwf', hfr', hout'⟩ := ih
        ({ w.log (Call.connect (retarget old new c.src) c.srcOutlet
            (retarget old new c.dst) c.dstInlet) with graph := g1 })
        hwf1 (fun c' h' => ⟨(hfr.live _).2 (hcs c' h').1, (hfr.live _).2 (hcs c' h').2⟩)
      refine ⟨g', ?_, hwf', hfr.trans hfr', fun c' => ?_⟩
      · rw [restoreConnections]
        simp only
        rw [if_neg (by omega), if_neg (by omega), hg1]
        simp only
        rw [hr, World.log_eq _ _ hnf]
        simp only [List.filter_cons, decide_eq_true_eq, hv, if_true, List.map_cons,
          stillValid_congr hfr, connectCall, List.append_assoc, List.singleton_append]
      · rw [hout']
        simp only [hout, List.filter_cons, decide_eq_true_eq, hv, if_true, List.map_cons,
          stillValid_congr hfr, List.mem_cons, DFConnection.retargeted]
        tauto
    · obtain ⟨g', hr, hwf', hfr', hout'⟩ := ih w hwf hcs
      refine ⟨g', ?_, hwf', hfr', fun c' => ?_⟩
      · rw [restoreConnections]
        simp only
        have hv' := hv
        unfold stillValid at hv'
        by_cases h1 : w.graph.outletCount (retarget old new c.src) ≤ c.srcOutlet
        · rw [if_pos h1, hr]
          simp [List.filter_cons, hv]
        · rw [if_neg h1, if_pos (by omega), hr]
          simp [List.filter_cons, hv]
      · rw [hout']
        simp [List.filter_cons, hv]

/-! ## Elementary steps of a handler and the invariant -/

@[simp]
theorem World.setProperty_graph (w : World) (e : Nat) (v : Option DFNodeID) :
    (w.setProperty e v).graph = w.graph := rfl

@[simp]
theorem World.setProperty_trace (w : World) (e : Nat) (v : Option DFNodeID) :
    (w.setProperty e v).trace = w.trace ++ [Call.setProperty e v] := rfl

theorem World.setProperty_editor (w : World) (e : Nat) (v : Option DFNodeID)
    (nd : QDataflowModelNode) (he : w.editor[e]? = some nd) :
    (w.setProperty e v).editor = w.editor.set e { nd with property := v } := by
  show assignProperty w.editor e v = _
  unfold assignProperty; rw [he]

theorem World.setProperty_editor_none (w : World) (e : Nat) (v : Option DFNodeID)
    (he : w.editor[e]? = none) : (w.setProperty e v).editor = w.editor := by
  show assignProperty w.editor e v = _
  unfold assignProperty; rw [he]

theorem World.setProperty_faults (w : World) (e : Nat) (v : Option DFNodeID)
    (hv : ∀ p, v = some p → w.graph.live p ∧ w.justCreated = true) :
    (w.setProperty e v).faults = w.faults := by
  have hf : ∀ w' : World, w'.graph = w.graph → w'.trace = w.trace →
      w'.faulty (Call.setProperty e v) = false := by
    intro w' hw' ht'
    cases v with
    | none => rfl
    | some p =>
      have hj : w'.justCreated = true := by
        unfold World.justCreated
        rw [ht']
        exact (hv p rfl).2
      simp only [World.faulty, hw', hj, Graph.isNone_find_of_live (hv p rfl).1]
      rfl
  exact World.log_faults _ _ (hf _ rfl rfl)

theorem World.justCreated_log (w : World) (cmd : String) (x y : Int) :
    (w.log (Call.create cmd x y)).justCreated = true := by
  simp [World.justCreated, World.log]

@[simp]
theorem emitGraphChanged_graph (w : World) : (emitGraphChanged w).graph = w.graph := rfl
@[simp]
theorem emitGraphChanged_editor (w : World) : (emitGraphChanged w).editor = w.editor := rfl
@[simp]
theorem emitGraphChanged_trace (w : World) :
    (emitGraphChanged w).trace =
      w.trace ++ [Call.graphChanged, Call.saveGraph "" w.graph.snapshot] := by
  simp [emitGraphChanged, onGraphChanged]
@[simp]
theorem emitGraphChanged_faults (w : World) : (emitGraphChanged w).faults = w.faults := by
  rw [emitGraphChanged_eq]

theorem World.inv_congr {w w' : World} (hg : w'.graph = w.graph) (he : w'.editor = w.editor)
    (h : w.Inv) : w'.Inv := by
  unfold World.Inv World.Attached World.Unshared at *
  rw [hg, he]; exact h

theorem World.detached_congr {w w' : World} (he : w'.editor = w.editor) {p : DFNodeID}
    (h : w.Detached p) : w'.Detached p := by
  unfold World.Detached at *
  rw [he]; exact h

theorem World.ok_log {f : List Call} {w : World} (h : w.Ok f) (c : Call)
    (hc : w.faulty c = false) : (w.log c).Ok f :=
  ⟨World.inv_congr rfl rfl h.1, by rw [World.log_faults _ _ hc]; exact h.2⟩

theorem World.ok_emit {f : List Call} {w : World} (h : w.Ok f) : (emitGraphChanged w).Ok f :=
  ⟨World.inv_congr rfl rfl h.1, by rw [emitGraphChanged_faults]; exact h.2⟩

theorem World.ok_register {f : List Call} {w : World} (h : w.Ok f) (kind : NodeKind)
    (cmd : String) (x y : Int) :
    World.Ok f { w with graph := (w.graph.register kind cmd x y).1 } := by
  obtain ⟨⟨hwf, ha, hu⟩, hfl⟩ := h
  exact ⟨⟨Graph.wf_register hwf _ _ _ _,
    fun e nd p he hp => (Graph.live_register hwf _ _ _ _ p).2 (Or.inr (ha e nd p he hp)), hu⟩,
    hfl⟩

theorem World.detached_next {w : World} (h : w.Inv) : w.Detached w.graph.nextNodeId := by
  intro e nd he hp
  exact Graph.not_live_next h.1 (h.2.1 e nd _ he hp)

theorem World.ok_clear {f : List Call} {w : World} (h : w.Ok f) (e : Nat) :
    (w.setProperty e none).Ok f := by
  obtain ⟨⟨hwf, ha, hu⟩, hfl⟩ := h
  refine ⟨⟨by simpa using hwf, ?_, ?_⟩, ?_⟩
  · intro e' nd' p he' hp'
    rw [World.setProperty_graph]
    cases hE : w.editor[e]? with
    | none =>
      rw [World.setProperty_editor_none _ _ _ hE] at he'
      exact ha e' nd' p he' hp'
    | some nd =>
      rw [World.setProperty_editor _ _ _ nd hE, getElem?_set_property _ _ _ _ _ hE] at he'
      by_cases hee : e' = e
      · rw [if_pos hee] at he'
        cases he'
        cases hp'
      · rw [if_neg hee] at he'
        exact ha e' nd' p he' hp'
  · intro e1 e2 n1 n2 p h1 h2 hp1 hp2
    cases hE : w.editor[e]? with
    | none =>
      rw [World.setProperty_editor_none _ _ _ hE] at h1 h2
      exact hu e1 e2 n1 n2 p h1 h2 hp1 hp2
    | some nd =>
      rw [World.setProperty_editor _ _ _ nd hE, getElem?_set_property _ _ _ _ _ hE] at h1 h2
      by_cases he1 : e1 = e
      · rw [if_pos he1] at h1
        cases h1
        cases hp1
      · rw [if_neg he1] at h1
        by_cases he2 : e2 = e
        · rw [if_pos he2] at h2
          cases h2
          cases hp2
        · rw [if_neg he2] at h2
          exact hu e1 e2 n1 n2 p h1 h2 hp1 hp2
  · rw [World.setProperty_faults _ _ _ (fun p hp => by cases hp)]
    exact hfl

theorem World.detached_clear {w : World} (h : w.Inv) {e : Nat} {nd : QDataflowModelNode}
    {p : DFNodeID} (he : w.editor[e]? = some nd) (hp : nd.property = some p) :
    (w.setProperty e none).Detached p := by
  intro e' nd' he' hp'
  rw [World.setProperty_editor _ _ _ nd he, getElem?_set_property _ _ _ _ _ he] at he'
  by_cases hee : e' = e
  · rw [if_pos hee] at he'
    cases he'
    cases hp'
  · rw [if_neg hee] at he'
    exact hee (h.2.2 e' e nd' nd p he' he hp' hp)

theorem World.faulty_delete {w : World} {p : DFNodeID} (hl : w.graph.live p)
    (hd : w.Detached p) : w.faulty (Call.delete p) = false := by
  simp only [World.faulty, Graph.isNone_find_of_live hl, Bool.false_or]
  rw [Bool.eq_false_iff]
  intro hany
  rw [List.any_eq_true] at hany
  obtain ⟨nd, hmem, hnd⟩ := hany
  obtain ⟨e, he⟩ := List.mem_iff_getElem?.1 hmem
  exact hd e nd he (by simpa using hnd)

theorem World.ok_destroy {f : List Call} {w : World} (h : w.Ok f) {p : DFNodeID}
    (hd : w.Detached p) : World.Ok f { w with graph := w.graph.destroy p } := by
  obtain ⟨⟨hwf, ha, hu⟩, hfl⟩ := h
  refine ⟨⟨Graph.wf_destroy hwf p, ?_, hu⟩, hfl⟩
  intro e nd q he hq
  exact (Graph.live_destroy hwf p q).2 ⟨ha e nd q he hq, fun hqp => hd e nd he (hqp ▸ hq)⟩

theorem World.ok_attach {f : List Call} {w : World} (h : w.Ok f) (e : Nat) {p : DFNodeID}
    (hl : w.graph.live p) (hd : w.Detached p) (hj : w.justCreated = true) :
    (w.setProperty e (some p)).Ok f := by
  obtain ⟨⟨hwf, ha, hu⟩, hfl⟩ := h
  refine ⟨⟨by simpa using hwf, ?_, ?_⟩, ?_⟩
  · intro e' nd' q he' hq'
    rw [World.setProperty_graph]
    cases hE : w.editor[e]? with
    | none =>
      rw [World.setProperty_editor_none _ _ _ hE] at he'
      exact ha e' nd' q he' hq'
    | some nd =>
      rw [World.setProperty_editor _ _ _ nd hE, getElem?_set_property _ _ _ _ _ hE] at he'
      by_cases hee : e' = e
      · rw [if_pos hee] at he'
        cases he'
        cases hq'
        exact hl
      · rw [if_neg hee] at he'
        exact ha e' nd' q he' hq'
  · intro e1 e2 n1 n2 q h1 h2 hp1 hp2
    cases hE : w.editor[e]? with
    | none =>
      rw [World.setProperty_editor_none _ _ _ hE] at h1 h2
      exact hu e1 e2 n1 n2 q h1 h2 hp1 hp2
    | some nd =>
      rw [World.setProperty_editor _ _ _ nd hE, getElem?_set_property _ _ _ _ _ hE] at h1 h2
      by_cases he1 : e1 = e
      · by_cases he2 : e2 = e
        · rw [he1, he2]
        · rw [if_pos he1] at h1
          rw [if_neg he2] at h2
          cases h1
          cases hp1
          exact absurd hp2 (hd e2 n2 h2)
      · rw [if_neg he1] at h1
        by_cases he2 : e2 = e
        · rw [if_pos he2] at h2
          cases h2
          cases hp2
          exact absurd hp1 (hd e1 n1 h1)
        · rw [if_neg he2] at h2
          exact hu e1 e2 n1 n2 q h1 h2 hp1 hp2
  · rw [World.setProperty_faults _ _ _ (fun q hq => by cases hq; exact ⟨hl, hj⟩)]
    exact hfl

/-! ## The captured connection set -/

theorem DFNode.mem_inboundList (n : DFNode) (c : DFConnection) :
    c ∈ n.inboundList ↔
      c.dst = n.id ∧ (⟨c.src, c.srcOutlet⟩ : DFNodeIOlet) ∈ slotSet n.inboundConnections c.dstInlet := by
  unfold DFNode.inboundList
  simp only [List.mem_flatMap, List.mem_range, List.mem_map]
  constructor
  · rintro ⟨i, _, o, ho, rfl⟩
    exact ⟨rfl, ho⟩
  · rintro ⟨h1, h2⟩
    refine ⟨c.dstInlet, ?_, ⟨c.src, c.srcOutlet⟩, h2, ?_⟩
    · by_contra hlt
      rw [slotSet_of_le _ _ (Nat.le_of_not_lt hlt)] at h2
      simp at h2
    · cases c; simp at h1; simp [h1]

theorem DFNode.mem_outboundList (n : DFNode) (c : DFConnection) :
    c ∈ n.outboundList ↔
      c.src = n.id ∧ (⟨c.dst, c.dstInlet⟩ : DFNodeIOlet) ∈ slotSet n.outboundConnections c.srcOutlet := by
  unfold DFNode.outboundList
  simp only [List.mem_flatMap, List.mem_range, List.mem_map]
  constructor
  · rintro ⟨i, _, o, ho, rfl⟩
    exact ⟨rfl, ho⟩
  · rintro ⟨h1, h2⟩
    refine ⟨c.srcOutlet, ?_, ⟨c.dst, c.dstInlet⟩, h2, ?_⟩
    · by_contra hlt
      rw [slotSet_of_le _ _ (Nat.le_of_not_lt hlt)] at h2
      simp at h2
    · cases c; simp at h1; simp [h1]

theorem Graph.mem_connections {g : Graph} {p : DFNodeID} {n : DFNode} (hn : g.find p = some n)
    (c : DFConnection) :
    c ∈ g.connections p true true ↔ (c.dst = p ∧ g.inRec c) ∨ (c.src = p ∧ g.outRec c) := by
  have hid := Graph.find_id hn
  unfold Graph.connections
  rw [hn]
  simp only [if_true, List.mem_dedup, List.mem_append, DFNode.mem_inboundList,
    DFNode.mem_outboundList, hid]
  unfold Graph.inRec Graph.outRec Graph.inSet Graph.outSet
  constructor
  · rintro (⟨h1, h2⟩ | ⟨h1, h2⟩)
    · left; refine ⟨h1, ?_⟩; rw [h1, hn]; exact h2
    · right; refine ⟨h1, ?_⟩; rw [h1, hn]; exact h2
  · rintro (⟨h1, h2⟩ | ⟨h1, h2⟩)
    · left; refine ⟨h1, ?_⟩; rw [h1, hn] at h2; exact h2
    · right; refine ⟨h1, ?_⟩; rw [h1, hn] at h2; exact h2

theorem Graph.WF.live_of_outRec {g : Graph} (hg : g.WF) {c : DFConnection} (h : g.outRec c) :
    g.live c.src ∧ g.live c.dst := by
  have hi := (hg.symm c).1 h
  unfold Graph.outRec at h
  unfold Graph.inRec at hi
  rw [Graph.mem_outSet_iff] at h
  rw [Graph.mem_inSet_iff] at hi
  obtain ⟨n, hn, _⟩ := h
  obtain ⟨m, hm, _⟩ := hi
  exact ⟨Graph.live_of_find hn, Graph.live_of_find hm⟩

theorem Graph.str_of_find {g : Graph} {p : DFNodeID} {n : DFNode} (h : g.find p = some n) :
    g.str p = n.text := by
  simp [Graph.str, h]

/-- The successful replacement path of `onNodeTextChanged`, up to the restore loop. -/
theorem onNodeTextChanged_replace (catalog : Catalog) (w : World) (e : Nat) (text : String)
    (node : QDataflowModelNode) (old : DFNodeID) (n : DFNode) (kind : NodeKind)
    (hwf : w.graph.WF) (he : w.editor[e]? = some node) (hp : node.property = some old)
    (hfind : w.graph.find old = some n) (hne : n.text ≠ node.text) (hnonempty : node.text ≠ "")
    (hok : catalog node.text = Except.ok kind) :
    ∃ w5, onNodeTextChanged catalog w e text =
        restoreConnections (some old) w.graph.nextNodeId (w.graph.connections old true true) w5 ∧
      w5.graph = ((w.graph.destroy old).register kind node.text node.pos.1 node.pos.2).1 ∧
      w5.editor = w.editor.set e { node with property := some w.graph.nextNodeId } ∧
      w5.trace = w.trace ++ [Call.setProperty e none, Call.delete old,
        Call.create node.text node.pos.1 node.pos.2,
        Call.setProperty e (some w.graph.nextNodeId),
        Call.setNodeInfo e node.text kind.inlets kind.outlets true false,
        Call.graphChanged, Call.saveGraph "" w5.graph.snapshot] ∧
      (∀ f, w.Ok f → w5.Ok f) := by
  have hnext := Graph.nextNodeId_destroy hwf old
  have hwfd := Graph.wf_destroy hwf old
  unfold onNodeTextChanged
  rw [he]
  simp only
  unfold backupConnections
  rw [hp]
  simp only
  rw [Graph.str_of_find hfind, if_neg hne]
  simp only
  rw [if_neg hnonempty]
  unfold Graph.create
  rw [hok]
  simp only [World.log_graph, World.setProperty_graph]
  have h1 : ((w.graph.destroy old).register kind node.text node.pos.1 node.pos.2).2 =
      w.graph.nextNodeId := by simp [Graph.register, hnext]
  have h2 : ((w.graph.destroy old).register kind node.text node.pos.1 node.pos.2).1.str
      w.graph.nextNodeId = node.text := by
    unfold Graph.str
    rw [Graph.find_register hwfd, hnext, if_pos rfl]
    rfl
  have h3 : ((w.graph.destroy old).register kind node.text node.pos.1 node.pos.2).1.inletCount
      w.graph.nextNodeId = kind.inlets := by
    rw [Graph.inletCount_register hwfd, hnext, if_pos rfl]
  have h4 : ((w.graph.destroy old).register kind node.text node.pos.1 node.pos.2).1.outletCount
      w.graph.nextNodeId = kind.outlets := by
    rw [Graph.outletCount_register hwfd, hnext, if_pos rfl]
  rw [h1, h2, h3, h4]
  refine ⟨_, rfl, ?_, ?_, ?_, ?_⟩
  · simp
  · simp only [emitGraphChanged_editor, World.log_editor]
    rw [World.setProperty_editor _ _ _ { node with property := none }]
    · simp only [World.log_editor]
      rw [World.setProperty_editor _ _ _ node he]
      simp
    · simp only [World.log_editor]
      rw [World.setProperty_editor _ _ _ node he, getElem?_set_property _ _ _ _ _ he]
      simp
  · simp only [emitGraphChanged_trace, emitGraphChanged_graph, World.log_trace,
      World.setProperty_trace, World.log_graph, World.setProperty_graph, List.append_assoc,
      List.singleton_append, List.cons_append, List.nil_append]
  · intro f hf
    have hlo : w.graph.live old := Graph.live_of_find hfind
    have ha := World.ok_clear hf e
    have hda : (w.setProperty e none).Detached old := World.detached_clear hf.1 he hp
    have hb := World.ok_log ha (Call.delete old) (World.faulty_delete hlo hda)
    have hc := World.ok_destroy hb (World.detached_congr rfl hda)
    have hd := World.ok_log hc (Call.create node.text node.pos.1 node.pos.2) rfl
    have hdn : World.Detached _ (w.graph.destroy old).nextNodeId := World.detached_next hd.1
    rw [hnext] at hdn
    have he1 := World.ok_register hd kind node.text node.pos.1 node.pos.2
    have hln : ((w.graph.destroy old).register kind node.text node.pos.1 node.pos.2).1.live
        w.graph.nextNodeId := by
      rw [Graph.live_register hwfd, hnext]; exact Or.inl rfl
    have hf1 := World.ok_attach he1 e hln (World.detached_congr rfl hdn)
      (World.justCreated_log _ _ _ _)
    have hg1 := World.ok_log hf1
      (Call.setNodeInfo e node.text kind.inlets kind.outlets true false) rfl
    exact World.ok_emit hg1

/-! ## Replacement of a node -/

theorem live_retarget_after_replace {g : Graph} (hg : g.WF) (old : DFNodeID) (kind : NodeKind)
    (cmd : String) (x y : Int) (p : DFNodeID) (hp : g.live p) :
    ((g.destroy old).register kind cmd x y).1.live (retarget (some old) g.nextNodeId p) := by
  rw [Graph.live_register (Graph.wf_destroy hg old), Graph.nextNodeId_destroy hg,
    Graph.live_destroy hg]
  unfold retarget
  by_cases h : p = old
  · simp [h]
  · simp [h, hp]

theorem retarget_ne_old {g : Graph} (hg : g.WF) {old : DFNodeID} (hold : g.live old)
    (p : DFNodeID) : retarget (some old) g.nextNodeId p ≠ old := by
  have := hg.fresh old hold
  unfold retarget
  by_cases h : p = old
  · rw [if_pos (by rw [h])]; exact Nat.ne_of_gt this
  · rw [if_neg (by simpa using h)]; exact h

theorem stillValid_of_retargeted_eq {g : Graph} {old : Option DFNodeID} {new : DFNodeID}
    {c c' : DFConnection}
    (h : DFConnection.retargeted old new c' = DFConnection.retargeted old new c) :
    stillValid g old new c' ↔ stillValid g old new c := by
  unfold DFConnection.retargeted at h
  simp only [DFConnection.mk.injEq] at h
  unfold stillValid
  rw [h.1, h.2.1, h.2.2.1, h.2.2.2]

theorem connectCall_eq_iff (old : Option DFNodeID) (new : DFNodeID) (c c' : DFConnection) :
    connectCall old new c' = connectCall old new c ↔
      DFConnection.retargeted old new c' = DFConnection.retargeted old new c := by
  simp [connectCall, DFConnection.retargeted]

theorem mem_map_connectCall (old : Option DFNodeID) (new : DFNodeID) (g : Graph)
    (cs : List DFConnection) (c : DFConnection) (hc : c ∈ cs) :
    connectCall old new c ∈
        (cs.filter (fun c => decide (stillValid g old new c))).map (connectCall old new) ↔
      stillValid g old new c := by
  simp only [List.mem_map, List.mem_filter, decide_eq_true_eq]
  constructor
  · rintro ⟨c', ⟨_, hv⟩, heq⟩
    exact (stillValid_of_retargeted_eq ((connectCall_eq_iff old new c c').1 heq)).1 hv
  · exact fun hv => ⟨c, ⟨hc, hv⟩, rfl⟩

theorem mem_map_retargeted (old : Option DFNodeID) (new : DFNodeID) (g : Graph)
    (cs : List DFConnection) (c : DFConnection) (hc : c ∈ cs) :
    DFConnection.retargeted old new c ∈
        (cs.filter (fun c => decide (stillValid g old new c))).map
          (DFConnection.retargeted old new) ↔
      stillValid g old new c := by
  simp only [List.mem_map, List.mem_filter, decide_eq_true_eq]
  constructor
  · rintro ⟨c', ⟨_, hv⟩, heq⟩
    exact (stillValid_of_retargeted_eq heq).1 hv
  · exact fun hv => ⟨c, ⟨hc, hv⟩, rfl⟩

/-- The outcome of a successful replacement, in closed form. -/
theorem onNodeTextChanged_replace_spec (catalog : Catalog) (w : World) (e : Nat) (text : String)
    (node : QDataflowModelNode) (old : DFNodeID) (n : DFNode) (kind : NodeKind)
    (hwf : w.graph.WF) (he : w.editor[e]? = some node) (hp : node.property = some old)
    (hfind : w.graph.find old = some n) (hne : n.text ≠ node.text) (hnonempty : node.text ≠ "")
    (hok : catalog node.text = Except.ok kind) :
    ∃ (w5 : World) (g' : Graph), onNodeTextChanged catalog w e text =
        ⟨{ w5 with graph := g',
                   trace := w5.trace ++
                    ((w.graph.connections old true true).filter (fun c =>
                      decide (stillValid w5.graph (some old) w.graph.nextNodeId c))).map
                      (connectCall (some old) w.graph.nextNodeId) }, none⟩ ∧
      w5.graph = ((w.graph.destroy old).register kind node.text node.pos.1 node.pos.2).1 ∧
      w5.editor = w.editor.set e { node with property := some w.graph.nextNodeId } ∧
      w5.trace = w.trace ++ [Call.setProperty e none, Call.delete old,
        Call.create node.text node.pos.1 node.pos.2,
        Call.setProperty e (some w.graph.nextNodeId),
        Call.setNodeInfo e node.text kind.inlets kind.outlets true false,
        Call.graphChanged, Call.saveGraph "" w5.graph.snapshot] ∧
      (∀ f, w.Ok f → w5.Ok f) ∧
      w5.graph.WF ∧ g'.WF ∧ w5.graph.Frame g' ∧
      (∀ c, g'.outRec c ↔ w5.graph.outRec c ∨
        c ∈ ((w.graph.connections old true true).filter (fun c =>
            decide (stillValid w5.graph (some old) w.graph.nextNodeId c))).map
          (DFConnection.retargeted (some old) w.graph.nextNodeId)) := by
  obtain ⟨w5, heq, hg5, hed5, htr5, hok5⟩ :=
    onNodeTextChanged_replace catalog w e text node old n kind hwf he hp hfind hne hnonempty hok
  have hwf5 : w5.graph.WF := by
    rw [hg5]; exact Graph.wf_register (Graph.wf_destroy hwf old) _ _ _ _
  have hlive5 : ∀ c ∈ w.graph.connections old true true,
      w5.graph.live (retarget (some old) w.graph.nextNodeId c.src) ∧
      w5.graph.live (retarget (some old) w.graph.nextNodeId c.dst) := by
    intro c hc
    have hout : w.graph.outRec c := by
      rcases (Graph.mem_connections hfind c).1 hc with ⟨_, h⟩ | ⟨_, h⟩
      · exact (hwf.symm c).2 h
      · exact h
    obtain ⟨hs, hd⟩ := hwf.live_of_outRec hout
    rw [hg5]
    exact ⟨live_retarget_after_replace hwf old kind _ _ _ _ hs,
      live_retarget_after_replace hwf old kind _ _ _ _ hd⟩
  obtain ⟨g', hr, hwf', hfr, hout⟩ :=
    restoreConnections_spec (some old) w.graph.nextNodeId _ w5 hwf5 hlive5
  exact ⟨w5, g', heq.trans hr, hg5, hed5, htr5, hok5, hwf5, hwf', hfr, hout⟩

theorem not_connect_mem_head (e : Nat) (old new : DFNodeID) (cmd t : String) (x y : Int)
    (a b : Nat) (snap : Snapshot) (c : Call) (hc : ∃ s o d i, c = Call.connect s o d i) :
    c ∉ [Call.setProperty e none, Call.delete old, Call.create cmd x y,
      Call.setProperty e (some new), Call.setNodeInfo e t a b true false,
      Call.graphChanged, Call.saveGraph "" snap] := by
  obtain ⟨s, o, d, i, rfl⟩ := hc
  simp

/-- Claim C1: Node replacement in `onNodeTextChanged`, when the factory succeeds: no error
is raised, the editor node is attached to the replacement, and for every connection `c`
captured from the old node, with the replacement substituted for the old node at each
endpoint, `connect` is invoked for `c` if and only if its outlet index is below the
outlet count of its source and its inlet index below the inlet count of its destination;
the connection is then recorded in the final graph, and otherwise it is not. -/
theorem onNodeTextChanged_restores_valid_connections (catalog : Catalog) (w : World) (e : Nat)
    (text : String) (node : QDataflowModelNode) (old : DFNodeID) (n : DFNode) (kind : NodeKind)
    (hwf : w.graph.WF) (he : w.editor[e]? = some node) (hp : node.property = some old)
    (hfind : w.graph.find old = some n) (hne : n.text ≠ node.text) (hnonempty : node.text ≠ "")
    (hok : catalog node.text = Except.ok kind) :
    (onNodeTextChanged catalog w e text).raised = none ∧
    (onNodeTextChanged catalog w e text).world.editor[e]? =
      some { node with property := some w.graph.nextNodeId } ∧
    (onNodeTextChanged catalog w e text).world.graph.outletCount w.graph.nextNodeId =
      kind.outlets ∧
    (onNodeTextChanged catalog w e text).world.graph.inletCount w.graph.nextNodeId =
      kind.inlets ∧
    ∀ c ∈ w.graph.connections old true true,
      (Call.connect (retarget (some old) w.graph.nextNodeId c.src) c.srcOutlet
            (retarget (some old) w.graph.nextNodeId c.dst) c.dstInlet ∈
          newCalls w (onNodeTextChanged catalog w e text) ↔
        c.srcOutlet < (onNodeTextChanged catalog w e text).world.graph.outletCount
            (retarget (some old) w.graph.nextNodeId c.src) ∧
          c.dstInlet < (onNodeTextChanged catalog w e text).world.graph.inletCount
            (retarget (some old) w.graph.nextNodeId c.dst)) ∧
      ((onNodeTextChanged catalog w e text).world.graph.isConnected
            (retarget (some old) w.graph.nextNodeId c.src) c.srcOutlet
            (retarget (some old) w.graph.nextNodeId c.dst) c.dstInlet = true ↔
        c.srcOutlet < (onNodeTextChanged catalog w e text).world.graph.outletCount
            (retarget (some old) w.graph.nextNodeId c.src) ∧
          c.dstInlet < (onNodeTextChanged catalog w e text).world.graph.inletCount
            (retarget (some old) w.graph.nextNodeId c.dst)) := by
  obtain ⟨w5, g', heq, hg5, hed5, htr5, _, hwf5, hwf', hfr, hout⟩ :=
    onNodeTextChanged_replace_spec catalog w e text node old n kind hwf he hp hfind hne
      hnonempty hok
  have hwfd := Graph.wf_destroy hwf old
  have hnext := Graph.nextNodeId_destroy hwf old
  rw [heq]
  refine ⟨rfl, ?_, ?_, ?_, fun c hc => ⟨?_, ?_⟩⟩
  · simp only [hed5]
    rw [getElem?_set_property _ _ _ _ _ he, if_pos rfl]
  · simp only
    rw [hfr.outletCount, hg5, Graph.outletCount_register hwfd, hnext, if_pos rfl]
  · simp only
    rw [hfr.inletCount, hg5, Graph.inletCount_register hwfd, hnext, if_pos rfl]
  · have hsv := stillValid_congr hfr (some old) w.graph.nextNodeId c
    unfold stillValid at hsv
    simp only
    rw [hsv]
    unfold newCalls
    simp only [htr5, List.append_assoc, List.drop_left]
    rw [List.mem_append]
    have := mem_map_connectCall (some old) w.graph.nextNodeId w5.graph _ c hc
    unfold connectCall stillValid at this
    constructor
    · rintro (h | h)
      · exact absurd h (not_connect_mem_head _ _ _ _ _ _ _ _ _ _ _ ⟨_, _, _, _, rfl⟩)
      · exact this.1 h
    · exact fun h => Or.inr (this.2 h)
  · have hsv := stillValid_congr hfr (some old) w.graph.nextNodeId c
    unfold stillValid at hsv
    simp only
    rw [hsv]
    have hic : g'.isConnected (retarget (some old) w.graph.nextNodeId c.src) c.srcOutlet
        (retarget (some old) w.graph.nextNodeId c.dst) c.dstInlet = true ↔
        g'.outRec (DFConnection.retargeted (some old) w.graph.nextNodeId c) := by
      simp [Graph.isConnected, Graph.outRec, DFConnection.retargeted]
    rw [hic, hout]
    have hm := mem_map_retargeted (some old) w.graph.nextNodeId w5.graph _ c hc
    unfold stillValid at hm
    constructor
    · rintro (h | h)
      · exact hwf5.indexValid _ (Or.inl h)
      · exact hm.1 h
    · exact fun h => Or.inr (hm.2 h)

theorem retarget_some (old new p : DFNodeID) :
    retarget (some old) new p = if p = old then new else p := by
  unfold retarget
  by_cases h : p = old <;> simp [h]

/-- Claim C2: During a successful node replacement in `onNodeTextChanged` no connection is
left referencing the destroyed instance: the old node is not live afterwards; every
`connect` call made by the handler comes from a captured connection, with the
replacement at each endpoint where the old node appeared and the original node at every
other endpoint, so that neither endpoint is the old node; and no connection stored in
the final graph has the old node as an endpoint. -/
theorem onNodeTextChanged_no_reference_to_old (catalog : Catalog) (w : World) (e : Nat)
    (text : String) (node : QDataflowModelNode) (old : DFNodeID) (n : DFNode) (kind : NodeKind)
    (hwf : w.graph.WF) (he : w.editor[e]? = some node) (hp : node.property = some old)
    (hfind : w.graph.find old = some n) (hne : n.text ≠ node.text) (hnonempty : node.text ≠ "")
    (hok : catalog node.text = Except.ok kind) :
    ¬ (onNodeTextChanged catalog w e text).world.graph.live old ∧
    (onNodeTextChanged catalog w e text).world.graph.live w.graph.nextNodeId ∧
    w.graph.nextNodeId ≠ old ∧
    (∀ s o d i, Call.connect s o d i ∈ newCalls w (onNodeTextChanged catalog w e text) →
      s ≠ old ∧ d ≠ old ∧
      ∃ c ∈ w.graph.connections old true true,
        s = (if c.src = old then w.graph.nextNodeId else c.src) ∧ o = c.srcOutlet ∧
        d = (if c.dst = old then w.graph.nextNodeId else c.dst) ∧ i = c.dstInlet) ∧
    (∀ c, (onNodeTextChanged catalog w e text).world.graph.outRec c ∨
        (onNodeTextChanged catalog w e text).world.graph.inRec c →
      c.src ≠ old ∧ c.dst ≠ old) := by
  obtain ⟨w5, g', heq, hg5, hed5, htr5, _, hwf5, hwf', hfr, hout⟩ :=
    onNodeTextChanged_replace_spec catalog w e text node old n kind hwf he hp hfind hne
      hnonempty hok
  have hwfd := Graph.wf_destroy hwf old
  have hnext := Graph.nextNodeId_destroy hwf old
  have hlo : w.graph.live old := Graph.live_of_find hfind
  have hlt : old < w.graph.nextNodeId := hwf.fresh old hlo
  rw [heq]
  refine ⟨?_, ?_, Nat.ne_of_gt hlt, ?_, ?_⟩
  · simp only
    rw [hfr.live, hg5, Graph.live_register hwfd, hnext, Graph.live_destroy hwf]
    rintro (h | ⟨_, h⟩)
    · exact absurd h (Nat.ne_of_lt hlt)
    · exact h rfl
  · simp only
    rw [hfr.live, hg5, Graph.live_register hwfd, hnext]
    exact Or.inl rfl
  · intro s o d i hmem
    unfold newCalls at hmem
    simp only [htr5, List.append_assoc, List.drop_left] at hmem
    rw [List.mem_append] at hmem
    rcases hmem with h | h
    · exact absurd h (not_connect_mem_head _ _ _ _ _ _ _ _ _ _ _ ⟨_, _, _, _, rfl⟩)
    · simp only [List.mem_map, List.mem_filter, connectCall, Call.connect.injEq] at h
      obtain ⟨c, ⟨hc, _⟩, h1, h2, h3, h4⟩ := h
      refine ⟨?_, ?_, c, hc, ?_, h2.symm, ?_, h4.symm⟩
      · rw [← h1]; exact retarget_ne_old hwf hlo _
      · rw [← h3]; exact retarget_ne_old hwf hlo _
      · rw [← h1, retarget_some]
      · rw [← h3, retarget_some]
  · intro c hc
    simp only at hc
    have ho : g'.outRec c := hc.elim id (hwf'.symm c).2
    rw [hout] at ho
    rcases ho with h | h
    · rw [hg5, Graph.outRec_register hwfd, Graph.outRec_destroy hwf] at h
      exact h.2
    · simp only [List.mem_map, List.mem_filter] at h
      obtain ⟨c', _, rfl⟩ := h
      exact ⟨retarget_ne_old hwf hlo _, retarget_ne_old hwf hlo _⟩

/-- Claim C7: When the text of an editor node is changed to the empty string and differs
from the definition of the attached node, `onNodeTextChanged` destroys the attached
node, leaves the editor node with no attached node, and makes exactly five calls, none
of which is the factory or `connect`. -/
theorem onNodeTextChanged_empty_text (catalog : Catalog) (w : World) (e : Nat) (text : String)
    (node : QDataflowModelNode) (old : DFNodeID) (n : DFNode)
    (he : w.editor[e]? = some node) (hp : node.property = some old)
    (hfind : w.graph.find old = some n) (hne : n.text ≠ node.text) (hempty : node.text = "") :
    (onNodeTextChanged catalog w e text).raised = none ∧
    (onNodeTextChanged catalog w e text).world.graph = w.graph.destroy old ∧
    ¬ (onNodeTextChanged catalog w e text).world.graph.live old ∧
    (onNodeTextChanged catalog w e text).world.editor[e]? =
      some { node with property := none } ∧
    newCalls w (onNodeTextChanged catalog w e text) =
      [Call.setProperty e none, Call.delete old, Call.setNodeInfo e "" 0 0 false true,
        Call.graphChanged, Call.saveGraph "" (w.graph.destroy old).snapshot] ∧
    (∀ cmd x y, Call.create cmd x y ∉ newCalls w (onNodeTextChanged catalog w e text)) ∧
    (∀ s o d i, Call.connect s o d i ∉ newCalls w (onNodeTextChanged catalog w e text)) := by
  have hout : onNodeTextChanged catalog w e text =
      ⟨emitGraphChanged (({ (w.setProperty e none).log (Call.delete old) with
        graph := w.graph.destroy old } : World).log (Call.setNodeInfo e "" 0 0 false true)),
        none⟩ := by
    unfold onNodeTextChanged
    rw [he]
    simp only
    unfold backupConnections
    rw [hp]
    simp only
    rw [Graph.str_of_find hfind, if_neg hne]
    simp only
    rw [if_pos hempty]
    simp
  have hcalls : newCalls w (onNodeTextChanged catalog w e text) =
      [Call.setProperty e none, Call.delete old, Call.setNodeInfo e "" 0 0 false true,
        Call.graphChanged, Call.saveGraph "" (w.graph.destroy old).snapshot] := by
    rw [hout]
    unfold newCalls
    simp
  refine ⟨by rw [hout], by rw [hout]; simp, ?_, ?_, hcalls, ?_, ?_⟩
  · rw [hout]
    simp only [emitGraphChanged_graph, World.log_graph]
    unfold Graph.live
    rw [Graph.find_destroy, if_pos rfl]
    simp
  · rw [hout]
    simp only [emitGraphChanged_editor, World.log_editor]
    rw [World.setProperty_editor _ _ _ node he, getElem?_set_property _ _ _ _ _ he, if_pos rfl]
  · intro cmd x y; rw [hcalls]; simp
  · intro s o d i; rw [hcalls]; simp

theorem onNodeTextChanged_unchanged (catalog : Catalog) (w : World) (e : Nat) (text : String)
    (node : QDataflowModelNode) (p : DFNodeID) (n : DFNode)
    (he : w.editor[e]? = some node) (hp : node.property = some p)
    (hfind : w.graph.find p = some n) (hsame : n.text = node.text) :
    onNodeTextChanged catalog w e text = ⟨w, none⟩ := by
  unfold onNodeTextChanged
  rw [he]
  simp only
  unfold backupConnections
  rw [hp]
  simp only
  rw [Graph.str_of_find hfind, if_pos hsame]

/-- Claim C8: a text-changed event on an editor node whose text equals the definition of
the attached node is a no-op: the handler returns normally and leaves the whole state
unchanged (same attached node, same graph, no call logged: no destruction, creation,
`connect`, `disconnect`, graph-changed notification or save). -/
theorem onNodeTextChanged_same_text (catalog : Catalog) (w : World) (e : Nat) (text : String)
    (node : QDataflowModelNode) (p : DFNodeID) (n : DFNode)
    (he : w.editor[e]? = some node) (hp : node.property = some p)
    (hfind : w.graph.find p = some n) (hsame : n.text = node.text) :
    onNodeTextChanged catalog w e text = ⟨w, none⟩ ∧
    newCalls w (onNodeTextChanged catalog w e text) = [] := by
  have hout := onNodeTextChanged_unchanged catalog w e text node p n he hp hfind hsame
  refine ⟨hout, ?_⟩
  rw [hout]
  simp [newCalls]

/-! ## Resizing: the claims on `setNumIOlets` and `validateIOlet` -/

/-- Claim C3: Shrinking the inlet or outlet count of a node to `n` in a well-formed graph:
the severing step removes every connection whose slot index on that node is `n` or more
from both end nodes, keeps every other connection, and leaves the slot count as it was
(it runs before the truncation); after the resize the graph is again well formed and
every slot index referenced by a stored connection is below the current slot count of
the node it refers to. -/
theorem setNumInlets_setNumOutlets_sever (g : Graph) (p : DFNodeID) (n : Nat) (hg : g.WF) :
    (g.setNumInlets p n = (g.severInlets p n).resizeInlets p n ∧
      (g.severInlets p n).inletCount p = g.inletCount p ∧
      (∀ c, (g.severInlets p n).inRec c ↔ g.inRec c ∧ ¬ (c.dst = p ∧ n ≤ c.dstInlet)) ∧
      (∀ c, (g.severInlets p n).outRec c ↔ g.outRec c ∧ ¬ (c.dst = p ∧ n ≤ c.dstInlet)) ∧
      (∀ c, (g.setNumInlets p n).inRec c ↔ g.inRec c ∧ ¬ (c.dst = p ∧ n ≤ c.dstInlet)) ∧
      (∀ c, (g.setNumInlets p n).outRec c ↔ g.outRec c ∧ ¬ (c.dst = p ∧ n ≤ c.dstInlet)) ∧
      (g.live p → (g.setNumInlets p n).inletCount p = n) ∧
      (g.setNumInlets p n).WF ∧ (g.setNumInlets p n).IndexValid) ∧
    (g.setNumOutlets p n = (g.severOutlets p n).resizeOutlets p n ∧
      (g.severOutlets p n).outletCount p = g.outletCount p ∧
      (∀ c, (g.severOutlets p n).inRec c ↔ g.inRec c ∧ ¬ (c.src = p ∧ n ≤ c.srcOutlet)) ∧
      (∀ c, (g.severOutlets p n).outRec c ↔ g.outRec c ∧ ¬ (c.src = p ∧ n ≤ c.srcOutlet)) ∧
      (∀ c, (g.setNumOutlets p n).inRec c ↔ g.inRec c ∧ ¬ (c.src = p ∧ n ≤ c.srcOutlet)) ∧
      (∀ c, (g.setNumOutlets p n).outRec c ↔ g.outRec c ∧ ¬ (c.src = p ∧ n ≤ c.srcOutlet)) ∧
      (g.live p → (g.setNumOutlets p n).outletCount p = n) ∧
      (g.setNumOutlets p n).WF ∧ (g.setNumOutlets p n).IndexValid) := by
  have hi := Graph.removes_severInlets hg p n
  have ho := Graph.removes_severOutlets hg p n
  have hwi := hi.wf hg
  have hwo := ho.wf hg
  have hsi : ∀ c, (g.severInlets p n).inRec c → c.dst = p → c.dstInlet < n := by
    intro c hc hd
    have := ((hi.2.2 c).1 hc).2
    by_contra hlt
    exact this ⟨hd, Nat.le_of_not_lt hlt⟩
  have hso : ∀ c, (g.severOutlets p n).outRec c → c.src = p → c.srcOutlet < n := by
    intro c hc hd
    have := ((ho.2.1 c).1 hc).2
    by_contra hlt
    exact this ⟨hd, Nat.le_of_not_lt hlt⟩
  have hwi' := Graph.wf_resizeInlets hwi p n hsi
  have hwo' := Graph.wf_resizeOutlets hwo p n hso
  have hin : ∀ c, (g.setNumInlets p n).inRec c ↔ g.inRec c ∧ ¬ (c.dst = p ∧ n ≤ c.dstInlet) := by
    intro c
    unfold Graph.setNumInlets
    rw [Graph.inRec_resizeInlets, hi.2.2]
    constructor
    · exact fun h => h.1
    · exact fun h => ⟨h, fun hd => by
        by_contra hlt; exact h.2 ⟨hd, Nat.le_of_not_lt hlt⟩⟩
  have hout : ∀ c, (g.setNumOutlets p n).outRec c ↔
      g.outRec c ∧ ¬ (c.src = p ∧ n ≤ c.srcOutlet) := by
    intro c
    unfold Graph.setNumOutlets
    rw [Graph.outRec_resizeOutlets, ho.2.1]
    constructor
    · exact fun h => h.1
    · exact fun h => ⟨h, fun hd => by
        by_contra hlt; exact h.2 ⟨hd, Nat.le_of_not_lt hlt⟩⟩
  refine ⟨⟨rfl, hi.1.inletCount p, hi.2.2, hi.2.1, hin, ?_, ?_, hwi', hwi'.indexValid⟩,
    ⟨rfl, ho.1.outletCount p, ho.2.2, ho.2.1, ?_, hout, ?_, hwo', hwo'.indexValid⟩⟩
  · intro c
    unfold Graph.setNumInlets
    rw [Graph.outRec_resizeInlets, hi.2.1]
  · intro hp
    unfold Graph.setNumInlets
    exact Graph.inletCount_resizeInlets_self _ p n ((hi.1.live p).2 hp)
  · intro c
    unfold Graph.setNumOutlets
    rw [Graph.inRec_resizeOutlets, ho.2.2]
  · intro hp
    unfold Graph.setNumOutlets
    exact Graph.outletCount_resizeOutlets_self _ p n ((ho.1.live p).2 hp)

/-- Claim C4: Slot-index validation `validateIOlet` raises an error if and only if the
index is at least the number of slots, the error is then a range error, and for every
index below the number of slots it returns normally. -/
theorem validateIOlet_range_error_iff {α : Type} (v : List α) (i : Nat) (n : String) :
    ((∃ msg, validateIOlet v i n = Except.error (DFError.rangeError msg)) ↔ v.length ≤ i) ∧
    (validateIOlet v i n = Except.ok () ↔ i < v.length) ∧
    (∀ err, validateIOlet v i n = Except.error err → ∃ msg, err = DFError.rangeError msg) := by
  unfold validateIOlet
  by_cases h : i ≥ v.length
  · rw [if_pos h]
    refine ⟨⟨fun _ => h, fun _ => ⟨_, rfl⟩⟩, ⟨fun h' => (by cases h'), fun h' => (by omega)⟩, ?_⟩
    intro err herr
    cases herr
    exact ⟨_, rfl⟩
  · rw [if_neg h]
    refine ⟨⟨fun ⟨_, h'⟩ => (by cases h'), fun h' => absurd h' h⟩,
      ⟨fun _ => (by omega), fun _ => rfl⟩, ?_⟩
    intro err herr
    cases herr

/-- Claim C5: Resizing a slot table with `setNumIOlets(v, n)`, from a table in which every
slot `i` has index `i` and owner `this`: the result has exactly `n` slots, agrees with
the old table on the first `min m n` slots, every new slot `i` has index `i` and owner
`this`, growing only appends, and the property is preserved by every sequence of
resizes. -/
theorem setNumIOlets_spec (this : DFNodeID) (v : List DFNodeIOlet) (n : Nat)
    (h : SlotsOk this v) :
    (setNumIOlets this v n).length = n ∧
    (∀ i, i < min v.length n → (setNumIOlets this v n)[i]? = v[i]?) ∧
    (∀ i, v.length ≤ i → i < n → (setNumIOlets this v n)[i]? = some ⟨this, i⟩) ∧
    (v.length ≤ n → (setNumIOlets this v n).take v.length = v) ∧
    SlotsOk this (setNumIOlets this v n) ∧
    (∀ ns : List Nat, SlotsOk this (ns.foldl (setNumIOlets this) v)) := by
  refine ⟨length_setNumIOlets this v n, ?_, ?_, ?_, slotsOk_setNumIOlets this v n h,
    fun ns => slotsOk_foldl this ns v h⟩
  · intro i hi
    rw [getElem?_setNumIOlets, if_pos (by omega), if_pos (by omega)]
  · intro i h1 h2
    rw [getElem?_setNumIOlets, if_pos h2, if_neg (by omega)]
  · intro hle
    apply List.ext_getElem?
    intro i
    rw [List.getElem?_take]
    by_cases hi : i < v.length
    · rw [if_pos hi, getElem?_setNumIOlets, if_pos (by omega), if_pos hi]
    · rw [if_neg hi, List.getElem?_eq_none (by omega)]

/-! ## The invariant of the listener -/

theorem exampleGraph_wf : exampleGraph.WF := by
  have h0 := Graph.wf_register Graph.wf_empty ⟨["osc"], 2, 1⟩ "osc" 0 0
  have h1 := Graph.wf_register h0 ⟨["gain"], 1, 1⟩ "gain" 100 0
  have e2 : ((Graph.empty.register ⟨["osc"], 2, 1⟩ "osc" 0 0).1.register
      ⟨["gain"], 1, 1⟩ "gain" 100 0).1.connect 0 0 1 0 = Except.ok _ := rfl
  have h2 := Graph.wf_connect h1 e2
  exact @Graph.wf_connect _ exampleGraph h2 1 0 0 1 rfl

/-- Worked instance of C1: replacing the `gain` node 1 by a `sink` (one inlet, no outlet)
restores the connection into its inlet 0 and drops the one out of its outlet 0. -/
theorem onNodeTextChanged_restores_valid_connections_witness :
    (exampleWorld "osc" "sink").graph.WF ∧
    (onNodeTextChanged exampleCatalog (exampleWorld "osc" "sink") 1 "sink").raised = none ∧
    Call.connect 0 0 2 0 ∈ newCalls (exampleWorld "osc" "sink")
      (onNodeTextChanged exampleCatalog (exampleWorld "osc" "sink") 1 "sink") ∧
    Call.connect 2 0 0 1 ∉ newCalls (exampleWorld "osc" "sink")
      (onNodeTextChanged exampleCatalog (exampleWorld "osc" "sink") 1 "sink") :=
  have h := onNodeTextChanged_restores_valid_connections exampleCatalog
    (exampleWorld "osc" "sink") 1 "sink" ⟨"sink", (100, 0), some 1⟩ 1
    { id := 1, x := 100, y := 0, args := ["gain"], text := "gain",
      inlets := [⟨1, 0⟩], outlets := [⟨1, 0⟩],
      inboundConnections := [[⟨0, 0⟩]], outboundConnections := [[⟨0, 1⟩]] }
    ⟨["sink"], 1, 0⟩ exampleGraph_wf rfl rfl rfl (by decide) (by decide) rfl
  ⟨exampleGraph_wf, h.1,
    ((h.2.2.2.2 ⟨0, 0, 1, 0⟩ (by decide)).1).2 (by decide),
    fun hm => absurd (((h.2.2.2.2 ⟨1, 0, 0, 1⟩ (by decide)).1).1 hm) (by decide)⟩

/-- Worked instance of C2: after replacing node 1 of the example, node 1 is not live,
the replacement is node 2, and the stored connection into node 1 now ends at node 2. -/
theorem onNodeTextChanged_no_reference_to_old_witness :
    (exampleWorld "osc" "sink").graph.WF ∧
    ¬ (onNodeTextChanged exampleCatalog (exampleWorld "osc" "sink") 1 "sink").world.graph.live 1 ∧
    (onNodeTextChanged exampleCatalog (exampleWorld "osc" "sink") 1 "sink").world.graph.live 2 ∧
    ∀ c, (onNodeTextChanged exampleCatalog (exampleWorld "osc" "sink") 1
        "sink").world.graph.outRec c → c.src ≠ 1 ∧ c.dst ≠ 1 :=
  have h := onNodeTextChanged_no_reference_to_old exampleCatalog
    (exampleWorld "osc" "sink") 1 "sink" ⟨"sink", (100, 0), some 1⟩ 1
    { id := 1, x := 100, y := 0, args := ["gain"], text := "gain",
      inlets := [⟨1, 0⟩], outlets := [⟨1, 0⟩],
      inboundConnections := [[⟨0, 0⟩]], outboundConnections := [[⟨0, 1⟩]] }
    ⟨["sink"], 1, 0⟩ exampleGraph_wf rfl rfl rfl (by decide) (by decide) rfl
  ⟨exampleGraph_wf, h.1, h.2.1, fun c hc => h.2.2.2.2 c (Or.inl hc)⟩

/-- Worked instance of C3: shrinking node 0 of the example to no outlet removes the
connection out of its outlet 0 from both end nodes and keeps the other connection. -/
theorem setNumInlets_setNumOutlets_sever_witness :
    exampleGraph.WF ∧
    ¬ (exampleGraph.severOutlets 0 0).outRec ⟨0, 0, 1, 0⟩ ∧
    ¬ (exampleGraph.severOutlets 0 0).inRec ⟨0, 0, 1, 0⟩ ∧
    (exampleGraph.severOutlets 0 0).outletCount 0 = 1 ∧
    (exampleGraph.setNumOutlets 0 0).outletCount 0 = 0 ∧
    (exampleGraph.setNumOutlets 0 0).inRec ⟨1, 0, 0, 1⟩ ∧
    (exampleGraph.setNumOutlets 0 0).IndexValid :=
  have h := (setNumInlets_setNumOutlets_sever exampleGraph 0 0 exampleGraph_wf).2
  ⟨exampleGraph_wf,
    fun hc => (((h.2.2.2.1 ⟨0, 0, 1, 0⟩).1 hc).2) ⟨rfl, Nat.le_refl 0⟩,
    fun hc => (((h.2.2.1 ⟨0, 0, 1, 0⟩).1 hc).2) ⟨rfl, Nat.le_refl 0⟩,
    h.2.1, h.2.2.2.2.2.2.1 (by decide),
    (h.2.2.2.2.1 ⟨1, 0, 0, 1⟩).2 ⟨by decide, by decide⟩,
    h.2.2.2.2.2.2.2.2⟩

/-- Worked instance of C5: growing a two-slot table of node 7 to four slots. -/
theorem setNumIOlets_spec_witness :
    SlotsOk 7 [⟨7, 0⟩, ⟨7, 1⟩] ∧
    (setNumIOlets 7 [⟨7, 0⟩, ⟨7, 1⟩] 4).length = 4 ∧
    (setNumIOlets 7 [⟨7, 0⟩, ⟨7, 1⟩] 4)[3]? = some ⟨7, 3⟩ ∧
    SlotsOk 7 ([1, 3].foldl (setNumIOlets 7) [⟨7, 0⟩, ⟨7, 1⟩]) :=
  have hs : SlotsOk 7 [⟨7, 0⟩, ⟨7, 1⟩] := fun i hi =>
    match i, hi with
    | 0, _ => rfl
    | 1, _ => rfl
    | k + 2, hk => absurd hk (by simp)
  have h := setNumIOlets_spec 7 [⟨7, 0⟩, ⟨7, 1⟩] 4 hs
  ⟨hs, h.1, h.2.2.1 3 (by decide) (by decide), h.2.2.2.2.2 [1, 3]⟩

/-- Worked instance of C7: the text of the editor node attached to the `gain` node 1
of the example becomes empty. -/
theorem onNodeTextChanged_empty_text_witness :
    ¬ (onNodeTextChanged exampleCatalog (exampleWorld "osc" "") 1 "").world.graph.live 1 ∧
    (onNodeTextChanged exampleCatalog (exampleWorld "osc" "") 1 "").world.editor[1]? =
      some ⟨"", (100, 0), none⟩ ∧
    ∀ cmd x y, Call.create cmd x y ∉ newCalls (exampleWorld "osc" "")
      (onNodeTextChanged exampleCatalog (exampleWorld "osc" "") 1 "") :=
  have h := onNodeTextChanged_empty_text exampleCatalog (exampleWorld "osc" "") 1 ""
    ⟨"", (100, 0), some 1⟩ 1
    { id := 1, x := 100, y := 0, args := ["gain"], text := "gain",
      inlets := [⟨1, 0⟩], outlets := [⟨1, 0⟩],
      inboundConnections := [[⟨0, 0⟩]], outboundConnections := [[⟨0, 1⟩]] }
    rfl rfl rfl (by decide) rfl
  ⟨h.2.2.1, h.2.2.2.1, h.2.2.2.2.2.1⟩

/-- Worked instance of C8: a text-changed event on the editor node of the `gain` node 1
whose text is still `gain`. -/
theorem onNodeTextChanged_same_text_witness :
    onNodeTextChanged exampleCatalog (exampleWorld "osc" "gain") 1 "gain" =
      ⟨exampleWorld "osc" "gain", none⟩ :=
  (onNodeTextChanged_same_text exampleCatalog (exampleWorld "osc" "gain") 1 "gain"
    ⟨"gain", (100, 0), some 1⟩ 1
    { id := 1, x := 100, y := 0, args := ["gain"], text := "gain",
      inlets := [⟨1, 0⟩], outlets := [⟨1, 0⟩],
      inboundConnections := [[⟨0, 0⟩]], outboundConnections := [[⟨0, 1⟩]] }
    rfl rfl rfl rfl).1

/-- Claim C6, failing input: The editor node shows a command the catalog rejects: the
construction error propagates out of `onNodeAdded` (no status-bar message, no
`setNodeInfo`), whereas `onNodeTextChanged` catches it on the same input; in both cases
the editor node stays unattached. -/
theorem onNodeAdded_construction_error_escapes :
    (onNodeAdded exampleCatalog bogusWorld 0).raised =
      some (DFError.constructionError "unknown object") ∧
    newCalls bogusWorld (onNodeAdded exampleCatalog bogusWorld 0) =
      [Call.create "bogus" 0 0] ∧
    (onNodeAdded exampleCatalog bogusWorld 0).world.editor = [⟨"bogus", (0, 0), none⟩] ∧
    (onNodeTextChanged exampleCatalog bogusWorld 0 "bogus").raised = none ∧
    newCalls bogusWorld (onNodeTextChanged exampleCatalog bogusWorld 0 "bogus") =
      [Call.create "bogus" 0 0,
        Call.statusbarMessage "Dataflow: object creation error: unknown object",
        Call.setNodeInfo 0 "bogus" 0 0 false true, Call.graphChanged,
        Call.saveGraph "" ⟨[], []⟩] ∧
    (onNodeTextChanged exampleCatalog bogusWorld 0 "bogus").world.editor =
      [⟨"bogus", (0, 0), none⟩] := by
  decide

/-- Claim C9, failing input: Replacing the `gain` node 1 of the example by a `sink`: the
handler saves the graph before it restores the connections, so the saved description
has no connection while the graph at the end of the handler has the restored one; the
`connect` call is the last call, after `saveGraph`. -/
theorem onNodeTextChanged_saves_before_restoring :
    (onNodeTextChanged exampleCatalog (exampleWorld "osc" "sink") 1 "sink").raised = none ∧
    newCalls (exampleWorld "osc" "sink")
        (onNodeTextChanged exampleCatalog (exampleWorld "osc" "sink") 1 "sink") =
      [Call.setProperty 1 none, Call.delete 1, Call.create "sink" 100 0,
        Call.setProperty 1 (some 2), Call.setNodeInfo 1 "sink" 1 0 true false,
        Call.graphChanged,
        Call.saveGraph "" ⟨[(0, "osc", 0, 0), (2, "sink", 100, 0)], []⟩,
        Call.connect 0 0 2 0] ∧
    (onNodeTextChanged exampleCatalog (exampleWorld "osc" "sink") 1
        "sink").world.graph.snapshot =
      ⟨[(0, "osc", 0, 0), (2, "sink", 100, 0)], [⟨0, 0, 2, 0⟩]⟩ := by
  decide

end SimDataflow
